import Mathlib

/-!
Verification development for the dithering engine of the dither-magic
repository.  The engine consists of twelve dithering algorithms (eight
error-diffusion kernels, two ordered/threshold variants, a halftone
rasterizer and a blue-noise thresholder), a palette table with lookup, a
nearest-color palette quantizer, and a dispatch routine that selects an
algorithm by name.

Modelling conventions:
* Pixel samples are modelled exactly: integer (uint8) samples as Nat,
  floating-point working buffers as Rat.  The Python source computes with
  IEEE doubles; we use exact rationals, the standard idealization.
* The numpy arrays mutated in place by the source loops are modelled as
  functions Nat -> Nat -> a updated functionally, with the loops as folds
  over the raster order (y outer, x inner), linearised as k = y*w + x.
* numpy casts: astype(int) truncates toward zero; astype(np.uint8)
  truncates toward zero and wraps modulo 256.  Both are modelled exactly.
-/

namespace DitherMagic

/-- A color is an RGB triple, integer channels (source: tuples of ints). -/
abbrev Color := Nat × Nat × Nat

/-- RGB triple of rationals: a row of the floating-point working array of
the color dithering algorithms. -/
abbrev Q3 := ℚ × ℚ × ℚ

/-- A grayscale (PIL mode L) image: dimensions plus a sample grid.
Samples outside the width/height rectangle are irrelevant junk; theorems
quantify over in-bounds positions. -/
structure GrayImage where
  width : Nat
  height : Nat
  pix : Nat → Nat → Nat

/-- An RGB (PIL mode RGB) image. -/
structure ColorImage where
  width : Nat
  height : Nat
  pix : Nat → Nat → Color

/-- A decoded PIL image: either mode L (1 channel) or mode RGB (3
channels). -/
inductive PILImage where
  | gray : GrayImage → PILImage
  | rgb : ColorImage → PILImage

/-- Channel count of an image: 1 for mode L, 3 for mode RGB. -/
def PILImage.channels : PILImage → Nat
  | .gray _ => 1
  | .rgb _ => 3

/-- Width of an image. -/
def PILImage.width : PILImage → Nat
  | .gray g => g.width
  | .rgb c => c.width

/-- Height of an image. -/
def PILImage.height : PILImage → Nat
  | .gray g => g.height
  | .rgb c => c.height

/-- PIL's `convert('L')` luminance formula (ITU-R 601-2, integer
truncation): L = (299 R + 587 G + 114 B) / 1000. -/
def lumaByte (c : Color) : Nat :=
  (299 * c.1 + 587 * c.2.1 + 114 * c.2.2) / 1000

/-- Source `image.convert('L')`: identity on mode-L images, luminance
conversion on RGB images. -/
def convertL : PILImage → GrayImage
  | .gray g => g
  | .rgb c => ⟨c.width, c.height, fun y x => lumaByte (c.pix y x)⟩

/-- Source `image.convert('RGB')`: identity on RGB images, channel
replication on mode-L images. -/
def convertRGB : PILImage → ColorImage
  | .rgb c => c
  | .gray g => ⟨g.width, g.height, fun y x => (g.pix y x, g.pix y x, g.pix y x)⟩

/-- Functional update of a 2-dimensional sample grid at one position:
models a single in-place numpy array store `arr[y, x] = v`. -/
def upd {α : Type} (g : Nat → Nat → α) (y x : Nat) (v : α) : Nat → Nat → α :=
  fun y' x' => if y' = y ∧ x' = x then v else g y' x'

theorem upd_same {α : Type} (g : Nat → Nat → α) (y x : Nat) (v : α) :
    upd g y x v y x = v := by
  simp [upd]

theorem upd_other {α : Type} (g : Nat → Nat → α) {y x y' x' : Nat} (v : α)
    (h : ¬(y' = y ∧ x' = x)) : upd g y x v y' x' = g y' x' := by
  simp only [upd, if_neg h]

/-- Truncation of a rational toward zero, as numpy's `astype(int)` / C
cast does for doubles. -/
def ratTrunc (q : ℚ) : ℤ :=
  if 0 ≤ q then ⌊q⌋ else -⌊-q⌋

/-- numpy `astype(np.uint8)` on a double: truncate toward zero, wrap
modulo 256. -/
def toByte (q : ℚ) : Nat :=
  ((ratTrunc q) % 256).toNat

theorem ratTrunc_natCast (n : Nat) : ratTrunc (n : ℚ) = n := by
  simp [ratTrunc]

theorem toByte_natCast {n : Nat} (h : n < 256) : toByte (n : ℚ) = n := by
  have h2 : ((n : ℤ) % 256) = (n : ℤ) := by omega
  simp [toByte, ratTrunc_natCast, h2]

/-- An error-diffusion kernel: (row offset, column offset, weight)
triples.  Row offsets are nonnegative in all kernels of the source. -/
abbrev Kernel := List (Nat × ℤ × ℚ)

/-- Floyd-Steinberg kernel, as in `floyd_steinberg_color_dither`
(src/unnamed/part_013) and docs/ALGORITHMS.md: 7/16 right, 3/16
down-left, 5/16 down, 1/16 down-right. -/
def fsKernel : Kernel :=
  [(0, 1, 7/16), (1, -1, 3/16), (1, 0, 5/16), (1, 1, 1/16)]

/-- Atkinson kernel, as in `atkinson_color_dither` (src/unnamed/part_013)
and docs/ALGORITHMS.md: six targets at weight 1/8 each (2/8 of the error
is deliberately discarded). -/
def atkinsonKernel : Kernel :=
  [(0, 1, 1/8), (0, 2, 1/8), (1, 0, 1/8), (1, 1, 1/8), (1, -1, 1/8), (2, 0, 1/8)]

/-- Stucki kernel from `stucki_dither` (src/unnamed/part_012), denominator 42. -/
def stuckiKernel : Kernel :=
  [(0, 1, 8/42), (0, 2, 4/42),
   (1, -2, 2/42), (1, -1, 4/42), (1, 0, 8/42), (1, 1, 4/42), (1, 2, 2/42),
   (2, -2, 1/42), (2, -1, 2/42), (2, 0, 4/42), (2, 1, 2/42), (2, 2, 1/42)]

/-- Jarvis-Judice-Ninke kernel from `jarvis_dither` (src/unnamed/part_012),
denominator 48. -/
def jarvisKernel : Kernel :=
  [(0, 1, 7/48), (0, 2, 5/48),
   (1, -2, 3/48), (1, -1, 5/48), (1, 0, 7/48), (1, 1, 5/48), (1, 2, 3/48),
   (2, -2, 1/48), (2, -1, 3/48), (2, 0, 5/48), (2, 1, 3/48), (2, 2, 1/48)]

/-- Burkes kernel from `burkes_dither` (src/unnamed/part_012), denominator 32. -/
def burkesKernel : Kernel :=
  [(0, 1, 8/32), (0, 2, 4/32),
   (1, -2, 2/32), (1, -1, 4/32), (1, 0, 8/32), (1, 1, 4/32), (1, 2, 2/32)]

/-- Sierra (3-row) kernel from `sierra_dither` (src/unnamed/part_012),
denominator 32. -/
def sierraKernel : Kernel :=
  [(0, 1, 5/32), (0, 2, 3/32),
   (1, -2, 2/32), (1, -1, 4/32), (1, 0, 5/32), (1, 1, 4/32), (1, 2, 2/32),
   (2, -1, 2/32), (2, 0, 3/32), (2, 1, 2/32)]

/-- Sierra Two-Row kernel from `sierra_two_row_dither`
(src/unnamed/part_012), denominator 16. -/
def sierraTwoRowKernel : Kernel :=
  [(0, 1, 4/16), (0, 2, 3/16),
   (1, -2, 1/16), (1, -1, 2/16), (1, 0, 3/16), (1, 1, 2/16), (1, 2, 1/16)]

/-- Sierra Lite kernel from `sierra_lite_dither` (src/unnamed/part_012),
denominator 4. -/
def sierraLiteKernel : Kernel :=
  [(0, 1, 2/4), (1, -1, 1/4), (1, 0, 1/4)]

/-- A kernel is forward (causal in raster order) when every target is on
a strictly later row, or on the same row strictly to the right. -/
def Forward (kern : Kernel) : Prop :=
  ∀ e ∈ kern, 1 ≤ e.1 ∨ (e.1 = 0 ∧ 1 ≤ e.2.1)

/-!
Generic error-diffusion driver.  All eight error-diffusion functions of the
source share one loop body verbatim (the spec notes this duplication);
they differ only in the kernel table, in the working value type
(Rat for the grayscale functions, Q3 for the color ones) and in the
quantizer (binary threshold vs. nearest palette color).  The driver is
parameterised by those: `sub`, `sc`, `add` are the value-type operations
(subtraction, weight scaling, accumulation) and `quant` the quantizer.
-/

section Driver

variable {α : Type}

/-- Error diffusion of `err` from source position (sy, sx): for every
kernel entry whose target lies inside the w×h buffer, accumulate the
weighted error there; out-of-bounds contributions are silently dropped
(the guarded `if` ladders of the source). -/
def diffuse (w h sy sx : Nat) (err : α) (sc : ℚ → α → α) (add : α → α → α)
    (kern : Kernel) (s : Nat → Nat → α) : Nat → Nat → α :=
  kern.foldl (fun t e =>
    let ty := sy + e.1
    let tx : ℤ := (sx : ℤ) + e.2.1
    if ty < h ∧ 0 ≤ tx ∧ tx < (w : ℤ) then
      upd t ty tx.toNat (add (t ty tx.toNat) (sc e.2.2 err))
    else t) s

/-- One iteration of the error-diffusion loop at linear raster index k
(so the pixel is (k / w, k % w)): read the accumulated value, quantize
it, store the quantized value, diffuse the quantization error forward. -/
def edStep (w h : Nat) (kern : Kernel) (quant : α → α) (sub : α → α → α)
    (sc : ℚ → α → α) (add : α → α → α) (s : Nat → Nat → α) (k : Nat) :
    Nat → Nat → α :=
  let y := k / w
  let x := k % w
  let old := s y x
  let nw := quant old
  diffuse w h y x (sub old nw) sc add kern (upd s y x nw)

/-- The full error-diffusion pass: the source's nested `for y / for x`
loops, linearised over k = y*w + x in increasing order. -/
def runED (w h : Nat) (kern : Kernel) (quant : α → α) (sub : α → α → α)
    (sc : ℚ → α → α) (add : α → α → α) (g : Nat → Nat → α) : Nat → Nat → α :=
  (List.range (h * w)).foldl (edStep w h kern quant sub sc add) g

end Driver

/-!
Structural lemmas about the error-diffusion driver: forward kernels only
ever write at raster positions strictly after the current one, so a
pixel, once quantized, is never modified again.
-/

section DriverLemmas

variable {α : Type}

theorem raster_div {y x w : Nat} (hx : x < w) : (y * w + x) / w = y := by
  have hw : 0 < w := by omega
  rw [Nat.mul_comm, Nat.mul_add_div hw, Nat.div_eq_of_lt hx, Nat.add_zero]

theorem raster_mod {y x w : Nat} (hx : x < w) : (y * w + x) % w = x := by
  rw [Nat.mul_comm, Nat.mul_add_mod, Nat.mod_eq_of_lt hx]

theorem raster_lt {y x w h : Nat} (hy : y < h) (hx : x < w) :
    y * w + x < h * w := by
  calc y * w + x < y * w + w := by omega
  _ = (y + 1) * w := by ring
  _ ≤ h * w := Nat.mul_le_mul_right w (by omega)

/-- A forward kernel target, when in bounds, has a strictly larger linear
raster index than the source pixel. -/
theorem target_index_gt (w sy sx : Nat) (dy : Nat) (dx : ℤ) (hsx : sx < w)
    (hfwd : 1 ≤ dy ∨ (dy = 0 ∧ 1 ≤ dx)) (htx0 : 0 ≤ (sx : ℤ) + dx) :
    sy * w + sx < (sy + dy) * w + ((sx : ℤ) + dx).toNat := by
  rcases hfwd with hdy | ⟨hdy0, hdx⟩
  · have h1 : (sy + dy) * w = sy * w + dy * w := by ring
    have h2 : w ≤ dy * w := Nat.le_mul_of_pos_left w (by omega)
    omega
  · subst hdy0
    have h1 : (sy + 0) * w = sy * w := by ring
    omega

theorem diffuse_le_untouched (w h sy sx y x : Nat) (err : α)
    (sc : ℚ → α → α) (add : α → α → α) (kern : Kernel) (hf : Forward kern)
    (s : Nat → Nat → α) (hx : x < w) (hle : y * w + x ≤ sy * w + sx) (hsx : sx < w) :
    diffuse w h sy sx err sc add kern s y x = s y x := by
  induction kern generalizing s with
  | nil => rfl
  | cons e rest ih =>
    have hfe : 1 ≤ e.1 ∨ (e.1 = 0 ∧ 1 ≤ e.2.1) := hf e (List.mem_cons_self e rest)
    have hfr : Forward rest := fun e2 he2 => hf e2 (List.mem_cons_of_mem e he2)
    simp only [diffuse, List.foldl_cons]
    rw [show (List.foldl _ _ rest : Nat → Nat → α) = diffuse w h sy sx err sc add rest _ from rfl]
    split
    case isTrue hg =>
      rw [ih hfr _]
      apply upd_other
      rintro ⟨rfl, rfl⟩
      have := target_index_gt w sy sx e.1 e.2.1 hsx hfe hg.2.1
      omega
    case isFalse hg =>
      exact ih hfr s

theorem diffuse_outside (w h sy sx y x : Nat) (err : α)
    (sc : ℚ → α → α) (add : α → α → α) (kern : Kernel)
    (s : Nat → Nat → α) (hout : ¬(y < h ∧ x < w)) :
    diffuse w h sy sx err sc add kern s y x = s y x := by
  induction kern generalizing s with
  | nil => rfl
  | cons e rest ih =>
    simp only [diffuse, List.foldl_cons]
    rw [show (List.foldl _ _ rest : Nat → Nat → α) = diffuse w h sy sx err sc add rest _ from rfl]
    split
    case isTrue hg =>
      rw [ih _]
      apply upd_other
      rintro ⟨rfl, rfl⟩
      exact hout ⟨hg.1, by omega⟩
    case isFalse hg =>
      exact ih s

theorem edStep_lt_untouched (w h : Nat) (kern : Kernel) (quant : α → α)
    (sub : α → α → α) (sc : ℚ → α → α) (add : α → α → α) (k y x : Nat)
    (hf : Forward kern)
    (s : Nat → Nat → α) (hk : k < h * w) (hx : x < w) (hlt : y * w + x < k) :
    edStep w h kern quant sub sc add s k y x = s y x := by
  have hw : 0 < w := by omega
  have hsx : k % w < w := Nat.mod_lt k hw
  have hidx : k / w * w + k % w = k := by
    rw [Nat.mul_comm]
    exact Nat.div_add_mod k w
  unfold edStep
  rw [diffuse_le_untouched w h _ _ y x _ sc add kern hf _ hx (by omega) hsx]
  apply upd_other
  rintro ⟨rfl, rfl⟩
  omega

theorem edStep_outside (w h : Nat) (kern : Kernel) (quant : α → α)
    (sub : α → α → α) (sc : ℚ → α → α) (add : α → α → α) (k y x : Nat)
    (s : Nat → Nat → α)
    (hw : 0 < w) (hk : k < h * w) (hout : ¬(y < h ∧ x < w)) :
    edStep w h kern quant sub sc add s k y x = s y x := by
  have hsx : k % w < w := Nat.mod_lt k hw
  have hsy : k / w < h := by
    rw [Nat.div_lt_iff_lt_mul hw]
    omega
  unfold edStep
  rw [diffuse_outside w h _ _ y x _ sc add kern _ hout]
  apply upd_other
  rintro ⟨rfl, rfl⟩
  exact hout ⟨hsy, hsx⟩

theorem edStep_self (w h : Nat) (kern : Kernel) (quant : α → α)
    (sub : α → α → α) (sc : ℚ → α → α) (add : α → α → α) (k : Nat)
    (hf : Forward kern)
    (s : Nat → Nat → α) (hw : 0 < w) (hk : k < h * w) :
    edStep w h kern quant sub sc add s k (k / w) (k % w) = quant (s (k / w) (k % w)) := by
  have hsx : k % w < w := Nat.mod_lt k hw
  unfold edStep
  rw [diffuse_le_untouched w h _ _ _ _ _ sc add kern hf _ hsx (Nat.le_refl _) hsx]
  exact upd_same _ _ _ _

/-- Closure invariant for error diffusion: if the quantizer always lands
in S, then every in-bounds sample of the final buffer is in S. -/
theorem runED_mem (w h : Nat) (kern : Kernel) (quant : α → α)
    (sub : α → α → α) (sc : ℚ → α → α) (add : α → α → α)
    (S : α → Prop) (hquant : ∀ v, S (quant v))
    (hf : Forward kern) (y x : Nat) (g : Nat → Nat → α)
    (hy : y < h) (hx : x < w) :
    S (runED w h kern quant sub sc add g y x) := by
  have aux : ∀ n, n ≤ h * w → ∀ y2 x2, y2 < h → x2 < w → y2 * w + x2 < n →
      S (((List.range n).foldl (edStep w h kern quant sub sc add) g) y2 x2) := by
    intro n
    induction n with
    | zero => intro _ y2 x2 _ _ h3; omega
    | succ n ih =>
      intro hn y2 x2 hy2 hx2 hlt
      rw [List.range_succ, List.foldl_append]
      simp only [List.foldl_cons, List.foldl_nil]
      rcases Nat.lt_or_ge (y2 * w + x2) n with hc | hc
      · rw [edStep_lt_untouched w h kern quant sub sc add n y2 x2 hf _ (by omega) hx2 hc]
        exact ih (by omega) y2 x2 hy2 hx2 hc
      · have heq : y2 * w + x2 = n := by omega
        have hdiv : n / w = y2 := by rw [← heq, raster_div hx2]
        have hmod : n % w = x2 := by rw [← heq, raster_mod hx2]
        have hstep := edStep_self w h kern quant sub sc add n hf
          ((List.range n).foldl (edStep w h kern quant sub sc add) g) (by omega) (by omega)
        rw [hdiv, hmod] at hstep
        rw [hstep]
        exact hquant _
  exact aux (h * w) (Nat.le_refl _) y x hy hx (raster_lt hy hx)

/-- Error diffusion never writes outside the buffer: samples outside the
w×h rectangle are returned unchanged. -/
theorem runED_outside (w h : Nat) (kern : Kernel) (quant : α → α)
    (sub : α → α → α) (sc : ℚ → α → α) (add : α → α → α) (y x : Nat)
    (g : Nat → Nat → α)
    (hw : 0 < w) (hout : ¬(y < h ∧ x < w)) :
    runED w h kern quant sub sc add g y x = g y x := by
  have aux : ∀ n, n ≤ h * w →
      ((List.range n).foldl (edStep w h kern quant sub sc add) g) y x = g y x := by
    intro n
    induction n with
    | zero => intro _; rfl
    | succ n ih =>
      intro hn
      rw [List.range_succ, List.foldl_append]
      simp only [List.foldl_cons, List.foldl_nil]
      rw [edStep_outside w h kern quant sub sc add n y x _ hw (by omega) hout]
      exact ih (by omega)
  exact aux (h * w) (Nat.le_refl _)

/-- On a 1×1 buffer, error diffusion quantizes the single pixel and all
diffusion targets fall outside the buffer. -/
theorem runED_one (kern : Kernel) (quant : α → α)
    (sub : α → α → α) (sc : ℚ → α → α) (add : α → α → α)
    (hf : Forward kern) (g : Nat → Nat → α) :
    runED 1 1 kern quant sub sc add g 0 0 = quant (g 0 0) := by
  show (List.range 1).foldl (edStep 1 1 kern quant sub sc add) g 0 0 = _
  have h1 : List.range 1 = [0] := rfl
  rw [h1]
  simp only [List.foldl_cons, List.foldl_nil]
  have hstep := edStep_self 1 1 kern quant sub sc add 0 hf g (by omega) (by omega)
  simpa using hstep

end DriverLemmas

/-!
Pointwise raster loops.  The ordered, Bayer and blue-noise loops of the
source also mutate the array in place, but each iteration writes only the
pixel it is visiting, computing the new value from the value currently
stored there; since positions are visited once, each pixel is computed
from its original value.  We model the loop literally as a fold of
single-pixel updates and prove the pointwise characterisation.
-/

section MapRaster

variable {α : Type}

/-- One iteration of a pointwise raster loop at linear index k. -/
def mapStep (w : Nat) (f : Nat → Nat → α → α) (s : Nat → Nat → α) (k : Nat) :
    Nat → Nat → α :=
  upd s (k / w) (k % w) (f (k / w) (k % w) (s (k / w) (k % w)))

/-- A full pointwise raster pass (y outer, x inner, linearised). -/
def mapRaster (w h : Nat) (f : Nat → Nat → α → α) (g : Nat → Nat → α) :
    Nat → Nat → α :=
  (List.range (h * w)).foldl (mapStep w f) g

/-- Pointwise characterisation of a raster map: every in-bounds pixel is
transformed from its original value, everything else is untouched. -/
theorem mapRaster_pix (w h : Nat) (f : Nat → Nat → α → α) (g : Nat → Nat → α)
    (hw : 0 < w) (y x : Nat) :
    mapRaster w h f g y x = if y < h ∧ x < w then f y x (g y x) else g y x := by
  have aux : ∀ n, n ≤ h * w → ∀ y2 x2,
      ((List.range n).foldl (mapStep w f) g) y2 x2 =
        if y2 < h ∧ x2 < w ∧ y2 * w + x2 < n then f y2 x2 (g y2 x2) else g y2 x2 := by
    intro n
    induction n with
    | zero => intro _ y2 x2; simp
    | succ n ih =>
      intro hn y2 x2
      rw [List.range_succ, List.foldl_append]
      simp only [List.foldl_cons, List.foldl_nil]
      have hsx : n % w < w := Nat.mod_lt n hw
      have hsy : n / w < h := by
        rw [Nat.div_lt_iff_lt_mul hw]
        omega
      have hidx : n / w * w + n % w = n := by
        rw [Nat.mul_comm]
        exact Nat.div_add_mod n w
      by_cases hc : y2 = n / w ∧ x2 = n % w
      · rcases hc with ⟨rfl, rfl⟩
        rw [mapStep, upd_same, ih (by omega) _ _]
        rw [if_neg (by omega)]
        rw [if_pos ⟨hsy, hsx, by omega⟩]
      · rw [mapStep, upd_other _ _ hc, ih (by omega) y2 x2]
        by_cases hb : y2 < h ∧ x2 < w
        · have hne : y2 * w + x2 ≠ n := by
            intro he
            apply hc
            constructor
            · rw [← he, raster_div hb.2]
            · rw [← he, raster_mod hb.2]
          by_cases hlt : y2 * w + x2 < n
          · rw [if_pos ⟨hb.1, hb.2, hlt⟩, if_pos ⟨hb.1, hb.2, by omega⟩]
          · rw [if_neg (by omega), if_neg (by omega)]
        · rw [if_neg (by omega), if_neg (by omega)]
  rw [show mapRaster w h f g = (List.range (h * w)).foldl (mapStep w f) g from rfl]
  rw [aux (h * w) (Nat.le_refl _) y x]
  by_cases hb : y < h ∧ x < w
  · rw [if_pos ⟨hb.1, hb.2, raster_lt hb.1 hb.2⟩, if_pos hb]
  · rw [if_neg (by tauto), if_neg hb]

end MapRaster

/-!
Grayscale algorithms.  The eight error-diffusion functions of
src/unnamed/part_012 share one loop body verbatim; each is the driver
with its own kernel table: quantizer is the binary threshold
(255 if value > 127 else 0), error is old - new, and the working values
are rationals (doubles in the source).
-/

/-- Binary quantizer of the grayscale error-diffusion loops:
new_pixel = 255 if old_pixel > 127 else 0. -/
def quantBW (v : ℚ) : ℚ := if 127 < v then 255 else 0

/-- Shared shape of the grayscale error-diffusion functions: convert to
mode L, run the kernel over a floating-point copy in raster order, cast
back to uint8. -/
def grayED (kern : Kernel) (image : PILImage) : GrayImage :=
  let img := convertL image
  let res := runED img.width img.height kern quantBW
    (fun a b => a - b) (fun wt e => e * wt) (fun a b => a + b)
    (fun y x => (img.pix y x : ℚ))
  ⟨img.width, img.height, fun y x => toByte (res y x)⟩

/-- Source `stucki_dither` (src/unnamed/part_012). -/
def stucki_dither (image : PILImage) : GrayImage := grayED stuckiKernel image

/-- Source `jarvis_dither` (src/unnamed/part_012). -/
def jarvis_dither (image : PILImage) : GrayImage := grayED jarvisKernel image

/-- Source `burkes_dither` (src/unnamed/part_012). -/
def burkes_dither (image : PILImage) : GrayImage := grayED burkesKernel image

/-- Source `sierra_dither` (src/unnamed/part_012). -/
def sierra_dither (image : PILImage) : GrayImage := grayED sierraKernel image

/-- Source `sierra_two_row_dither` (src/unnamed/part_012). -/
def sierra_two_row_dither (image : PILImage) : GrayImage :=
  grayED sierraTwoRowKernel image

/-- Source `sierra_lite_dither` (src/unnamed/part_012). -/
def sierra_lite_dither (image : PILImage) : GrayImage :=
  grayED sierraLiteKernel image

/-- Modelled from the spec: the original grayscale `floyd_steinberg_dither`
of dithering.py is not among the sources; its kernel (7/16, 3/16, 5/16,
1/16) and loop shape are documented in src/unnamed/part_012's
current-state table and docs/ALGORITHMS.md and coincide with the color
variant's kernel. -/
def floyd_steinberg_dither (image : PILImage) : GrayImage := grayED fsKernel image

/-- Modelled from the spec: the original grayscale `atkinson_dither` of
dithering.py is not among the sources; its kernel (six targets at 1/8)
is documented in src/unnamed/part_012's current-state table and
docs/ALGORITHMS.md. -/
def atkinson_dither (image : PILImage) : GrayImage := grayED atkinsonKernel image

/-- The 4×4 threshold map used by the ordered dithering functions
(src/unnamed/part_013 `ordered_color_dither` and docs/ALGORITHMS.md). -/
def thresholdMap : List (List Nat) :=
  [[0, 8, 2, 10], [12, 4, 14, 6], [3, 11, 1, 9], [15, 7, 13, 5]]

/-- The 4×4 Bayer matrix used by the Bayer dithering functions
(src/unnamed/part_013 `bayer_color_dither`); same entries as the
threshold map. -/
def bayerMatrix : List (List Nat) :=
  [[0, 8, 2, 10], [12, 4, 14, 6], [3, 11, 1, 9], [15, 7, 13, 5]]

/-- Tiled lookup m[y mod 4][x mod 4] into a 4×4 matrix. -/
def matAt (m : List (List Nat)) (y x : Nat) : Nat :=
  (m.getD (y % 4) []).getD (x % 4) 0

/-- Modelled from the spec: the original grayscale `ordered_dither` of
dithering.py is not among the sources; per the vectorised reference in
src/unnamed/part_012 (threshold_map · 16 tiled over the image,
np.where(arr > threshold, 255, 0)) each pixel is thresholded against 16
times the tiled matrix value. -/
def ordered_dither (image : PILImage) : GrayImage :=
  let img := convertL image
  ⟨img.width, img.height,
    fun y x => if 16 * matAt thresholdMap y x < img.pix y x then 255 else 0⟩

/-- Modelled from the spec: the original grayscale `bayer_dither` of
dithering.py is not among the sources; same thresholding shape as
`ordered_dither` with the Bayer matrix. -/
def bayer_dither (image : PILImage) : GrayImage :=
  let img := convertL image
  ⟨img.width, img.height,
    fun y x => if 16 * matAt bayerMatrix y x < img.pix y x then 255 else 0⟩

/-!
Halftone rasterizer, from `halftone_dither` (src/unnamed/part_012).
The source iterates `for y in range(0, h - dot_size + 1, dot_size)`,
i.e. only over cells that fit entirely: Python's range(0, m, d) with
m = n - d + 1 has exactly n / d elements (0 for n < d).
-/

/-- Cell start offsets of the halftone loop: range(0, n - d + 1, d). -/
def cellStarts (n d : Nat) : List Nat :=
  (List.range (n / d)).map (fun q => q * d)

/-- Mean intensity of a d×d cell (np.mean over the cell slice). -/
def cellMean (arr : Nat → Nat → Nat) (d cy cx : Nat) : ℚ :=
  ((List.range d).foldl (fun acc i =>
    (List.range d).foldl (fun acc2 j => acc2 + (arr (cy + i) (cx + j) : ℚ)) acc) 0)
    / ((d : ℚ) * (d : ℚ))

/-- The circular dot mask test of the source,
sqrt((j - d/2 + 0.5)² + (i - d/2 + 0.5)²) <= radius, stated without the
square root (equivalent: a real sqrt is ≤ r iff r ≥ 0 and the radicand
is ≤ r²). -/
def inDot (d : Nat) (r : ℚ) (i j : Nat) : Prop :=
  0 ≤ r ∧
    (((j : ℚ) - (d : ℚ) / 2) + 1/2) ^ 2 + (((i : ℚ) - (d : ℚ) / 2) + 1/2) ^ 2 ≤ r ^ 2

instance inDotDecidable (d : Nat) (r : ℚ) (i j : Nat) : Decidable (inDot d r i j) :=
  inferInstanceAs (Decidable (_ ∧ _))

/-- Render one halftone cell: compute the dot radius from the cell's mean
intensity (darker means larger), then blacken every cell pixel inside the
dot. -/
def applyCell (arr : Nat → Nat → Nat) (d cy cx : Nat) (o : Nat → Nat → Nat) :
    Nat → Nat → Nat :=
  let r := ((d : ℚ) / 2) * (1 - cellMean arr d cy cx / 255)
  (List.range d).foldl (fun o1 i =>
    (List.range d).foldl (fun o2 j =>
      if inDot d r i j then upd o2 (cy + i) (cx + j) 0 else o2) o1) o

/-- The halftone pass: white background, then every complete d×d cell is
rendered; partial cells at the right/bottom edges are not visited. -/
def halftoneRun (arr : Nat → Nat → Nat) (w h d : Nat) : Nat → Nat → Nat :=
  (cellStarts h d).foldl (fun o cy =>
    (cellStarts w d).foldl (fun o2 cx => applyCell arr d cy cx o2) o)
    (fun _ _ => 255)

/-- Source `halftone_dither` (src/unnamed/part_012); `d` is dot_size
(default 4 at the call site). -/
def halftone_dither (image : PILImage) (d : Nat) : GrayImage :=
  let img := convertL image
  ⟨img.width, img.height, halftoneRun img.pix img.width img.height d⟩

/-!
Blue-noise thresholding, from `blue_noise_dither` and
`generate_blue_noise` (src/unnamed/part_012).
-/

/-- Modelled from the spec: the body of `generate_blue_noise` consists of
library calls that are not part of this repository (numpy's Mersenne
Twister seeded with the fixed seed 42, scipy's Gaussian filter, min-max
normalisation).  What the spec relies on is that the result is one fixed
deterministic 64×64 texture; it is modelled by an explicit deterministic
pseudo-random texture (the determinism theorems below are proved for an
arbitrary texture, so nothing depends on these particular values). -/
def BLUE_NOISE_SOURCE : Nat → Nat → ℚ :=
  fun i j => ((((64 * i + j) * 1103515245 + 12345) % 4096 : Nat) : ℚ) / 4096

/-- Source `blue_noise_dither` (src/unnamed/part_012), parameterised by
the 64×64 threshold texture: normalise samples to [0,1], threshold each
pixel against the tiled texture. -/
def blue_noise_dither (tex : Nat → Nat → ℚ) (image : PILImage) : GrayImage :=
  let img := convertL image
  let res := mapRaster img.width img.height
    (fun y x v => if tex (y % 64) (x % 64) < v then 255 else 0)
    (fun y x => (img.pix y x : ℚ) / 255)
  ⟨img.width, img.height, fun y x => toByte (res y x)⟩

/-!
Palette quantizer and the color dithering algorithms, from
src/unnamed/part_013 (color_dithering.py).
-/

/-- Squared Euclidean distance in RGB channel space between an (integer,
possibly out-of-range) pixel and a palette entry; the source compares
np.sqrt of this, and sqrt is monotone, so the argmin is the same. -/
def sqDist (p : ℤ × ℤ × ℤ) (c : Color) : ℤ :=
  ((c.1 : ℤ) - p.1) ^ 2 + ((c.2.1 : ℤ) - p.2.1) ^ 2 + ((c.2.2 : ℤ) - p.2.2) ^ 2

/-- Source `find_closest_color` (src/unnamed/part_013): the palette entry
with minimal (squared) Euclidean distance to the pixel; np.argmin returns
the first index attaining the minimum, which the fold's strict comparison
reproduces.  The incoming channels are used as given — no clamping is
performed.  On an empty palette np.argmin raises; modelled as none. -/
def find_closest_color (p : ℤ × ℤ × ℤ) (palette : List Color) : Option Color :=
  match palette with
  | [] => none
  | c :: cs => some (cs.foldl (fun best c2 => if sqDist p c2 < sqDist p best then c2 else best) c)

/-- Total wrapper for `find_closest_color` used inside the dithering
loops; the (0,0,0) fallback models the empty-palette exception path and
is unreachable whenever the palette is nonempty (the dispatch rejects
empty palettes before any loop runs). -/
def fccD (p : ℤ × ℤ × ℤ) (palette : List Color) : Color :=
  (find_closest_color p palette).getD (0, 0, 0)

/-- Lift a palette entry into the floating-point working space. -/
def q3OfColor (c : Color) : Q3 := ((c.1 : ℚ), (c.2.1 : ℚ), (c.2.2 : ℚ))

/-- numpy `astype(int)` on a float RGB triple: truncate each channel
toward zero. -/
def trunc3 (v : Q3) : ℤ × ℤ × ℤ := (ratTrunc v.1, ratTrunc v.2.1, ratTrunc v.2.2)

/-- Componentwise subtraction on working triples. -/
def sub3 (a b : Q3) : Q3 := (a.1 - b.1, a.2.1 - b.2.1, a.2.2 - b.2.2)

/-- Componentwise weight scaling on working triples. -/
def sc3 (wt : ℚ) (e : Q3) : Q3 := (e.1 * wt, e.2.1 * wt, e.2.2 * wt)

/-- Componentwise accumulation on working triples. -/
def add3 (a b : Q3) : Q3 := (a.1 + b.1, a.2.1 + b.2.1, a.2.2 + b.2.2)

/-- Egress of the color error-diffusion functions:
np.clip(arr, 0, 255).astype(np.uint8), per channel. -/
def clipByte (v : ℚ) : Nat := toByte (min (max v 0) 255)

/-- Clip-and-cast a working triple to an output color. -/
def colorOutClip (v : Q3) : Color := (clipByte v.1, clipByte v.2.1, clipByte v.2.2)

/-- Egress of the ordered/Bayer color functions: astype(np.uint8) with no
clip (their stored values are always palette entries). -/
def colorOut (v : Q3) : Color := (toByte v.1, toByte v.2.1, toByte v.2.2)

/-- Shared shape of the color error-diffusion functions: convert to RGB,
quantize each pixel to the closest palette color (after astype(int)
truncation), diffuse the per-channel error with the kernel, then clip and
cast back to uint8. -/
def colorED (kern : Kernel) (palette : List Color) (image : PILImage) : ColorImage :=
  let img := convertRGB image
  let res := runED img.width img.height kern
    (fun v => q3OfColor (fccD (trunc3 v) palette)) sub3 sc3 add3
    (fun y x => q3OfColor (img.pix y x))
  ⟨img.width, img.height, fun y x => colorOutClip (res y x)⟩

/-- Source `floyd_steinberg_color_dither` (src/unnamed/part_013). -/
def floyd_steinberg_color_dither (palette : List Color) (image : PILImage) : ColorImage :=
  colorED fsKernel palette image

/-- Source `atkinson_color_dither` (src/unnamed/part_013).  The source
computes error = (old - new) / 8 once and adds it unweighted at the six
targets; with exact rationals that equals diffusing (old - new) with the
six 1/8 weights of `atkinsonKernel`. -/
def atkinson_color_dither (palette : List Color) (image : PILImage) : ColorImage :=
  colorED atkinsonKernel palette image

/-- Sorting key of the ordered/Bayer color functions:
luminance 0.299 r + 0.587 g + 0.114 b of a palette entry. -/
def lumKey (c : Color) : ℚ :=
  (299/1000) * (c.1 : ℚ) + (587/1000) * (c.2.1 : ℚ) + (114/1000) * (c.2.2 : ℚ)

/-- Python's `sorted(palette, key=luminance)` — a stable ascending sort.
Insertion sort inserting each element before the first entry it is not
strictly brighter than is stable, hence agrees with the source's stable
mergesort. -/
def sortedByLum (palette : List Color) : List Color :=
  List.insertionSort (fun a b => lumKey a ≤ lumKey b) palette

/-- Normalized luminance of a working pixel,
(0.299 p0 + 0.587 p1 + 0.114 p2) / 255. -/
def pixelLum (p : Q3) : ℚ :=
  ((299/1000) * p.1 + (587/1000) * p.2.1 + (114/1000) * p.2.2) / 255

/-- Per-pixel body of `ordered_color_dither` / `bayer_color_dither`
(src/unnamed/part_013): bias the normalized luminance by the tiled matrix
value (offset by −1/2, scaled by 1/paletteSize), then index the
luminance-sorted palette at int(np.clip(adjusted·n, 0, n−1)); after the
clip the value is nonnegative, so int() truncation is the floor. -/
def orderedPixel (m : List (List Nat)) (palette : List Color) (y x : Nat) (p : Q3) : Q3 :=
  let ps := sortedByLum palette
  let n := ps.length
  let lum := pixelLum p
  let thr := (matAt m y x : ℚ) / 16
  let adjusted := lum + (thr - 1/2) / (n : ℚ)
  let idx := (⌊min (max (adjusted * (n : ℚ)) 0) ((n : ℚ) - 1)⌋).toNat
  q3OfColor (ps.getD idx (0, 0, 0))

/-- Source `ordered_color_dither` (src/unnamed/part_013). -/
def ordered_color_dither (palette : List Color) (image : PILImage) : ColorImage :=
  let img := convertRGB image
  let res := mapRaster img.width img.height
    (orderedPixel thresholdMap palette)
    (fun y x => q3OfColor (img.pix y x))
  ⟨img.width, img.height, fun y x => colorOut (res y x)⟩

/-- Source `bayer_color_dither` (src/unnamed/part_013): identical loop
with its own (equal-valued) matrix constant. -/
def bayer_color_dither (palette : List Color) (image : PILImage) : ColorImage :=
  let img := convertRGB image
  let res := mapRaster img.width img.height
    (orderedPixel bayerMatrix palette)
    (fun y x => q3OfColor (img.pix y x))
  ⟨img.width, img.height, fun y x => colorOut (res y x)⟩

/-!
Palette table and lookup, from src/unnamed/part_013 (palettes.py).
-/

/-- The 2-entry black/white palette, PALETTES['bw']. -/
def bwPalette : List Color := [(0, 0, 0), (255, 255, 255)]

/-- Source `PALETTES` dictionary (src/unnamed/part_013), in definition
order. -/
def PALETTES : List (String × List Color) :=
  [("bw", bwPalette),
   ("gameboy", [(15, 56, 15), (48, 98, 48), (139, 172, 15), (155, 188, 15)]),
   ("gameboy-pocket", [(0, 0, 0), (85, 85, 85), (170, 170, 170), (255, 255, 255)]),
   ("nes", [(0, 0, 0), (252, 252, 252), (188, 188, 188), (124, 124, 124),
            (164, 0, 0), (228, 0, 88), (216, 40, 120), (252, 116, 180),
            (0, 120, 248), (104, 68, 252), (248, 120, 88), (248, 56, 0),
            (0, 168, 0), (0, 168, 68), (184, 248, 24), (172, 124, 0),
            (248, 184, 0), (248, 216, 120), (0, 0, 168), (0, 88, 248),
            (88, 216, 84), (152, 120, 248), (248, 88, 152), (60, 188, 252)]),
   ("c64", [(0, 0, 0), (255, 255, 255), (136, 0, 0), (170, 255, 238),
            (204, 68, 204), (0, 204, 85), (0, 0, 170), (238, 238, 119),
            (221, 136, 85), (102, 68, 0), (255, 119, 119), (51, 51, 51),
            (119, 119, 119), (170, 255, 102), (0, 136, 255), (187, 187, 187)]),
   ("cga-mode4-p1", [(0, 0, 0), (0, 255, 255), (255, 0, 255), (255, 255, 255)]),
   ("cga-mode4-p0", [(0, 0, 0), (0, 255, 0), (255, 0, 0), (255, 255, 0)]),
   ("sepia", [(44, 33, 24), (92, 64, 51), (155, 118, 83), (199, 172, 132),
              (242, 227, 198)]),
   ("nord", [(46, 52, 64), (59, 66, 82), (67, 76, 94), (76, 86, 106),
             (216, 222, 233), (229, 233, 240), (236, 239, 244),
             (143, 188, 187), (136, 192, 208), (129, 161, 193), (94, 129, 172),
             (191, 97, 106), (208, 135, 112), (235, 203, 139), (163, 190, 140),
             (180, 142, 173)])]

/-- Source `get_palette` (src/unnamed/part_013):
PALETTES.get(name, PALETTES['bw']). -/
def get_palette (name : String) : List Color :=
  (PALETTES.lookup name).getD bwPalette

/-!
Dispatch, assembled from the two cited fragments: the ALGORITHMS table
and recognized-name check of src/unnamed/part_012 (twelve names, each
bound to its grayscale function, palette ignored) and the palette
handling of src/unnamed/part_013's `dither_image` (palette from the
custom list if supplied, else from `get_palette`; the four algorithms
with color variants use them unless the request is the default 'bw'
palette with no custom list).  The enclosing app.py is not itself among
the sources; everything below follows the cited fragments.
-/

/-- The recognized algorithm identifiers (src/unnamed/part_012,
ALGORITHMS dict). -/
def ALGORITHM_NAMES : List String :=
  ["floyd-steinberg", "ordered", "atkinson", "bayer",
   "stucki", "jarvis", "burkes", "sierra",
   "sierra-two-row", "sierra-lite", "halftone", "blue-noise"]

/-- The four algorithm identifiers that have color (palette-aware)
variants (src/unnamed/part_013). -/
def COLOR_ALGORITHM_NAMES : List String :=
  ["floyd-steinberg", "ordered", "atkinson", "bayer"]

/-- Grayscale dispatch: ALGORITHMS[algorithm](img) of
src/unnamed/part_012.  The final catch-all is unreachable: the dispatch
checks membership in ALGORITHM_NAMES first. -/
def grayApply (tex : Nat → Nat → ℚ) (alg : String) (image : PILImage) : GrayImage :=
  if alg = "floyd-steinberg" then floyd_steinberg_dither image
  else if alg = "ordered" then ordered_dither image
  else if alg = "atkinson" then atkinson_dither image
  else if alg = "bayer" then bayer_dither image
  else if alg = "stucki" then stucki_dither image
  else if alg = "jarvis" then jarvis_dither image
  else if alg = "burkes" then burkes_dither image
  else if alg = "sierra" then sierra_dither image
  else if alg = "sierra-two-row" then sierra_two_row_dither image
  else if alg = "sierra-lite" then sierra_lite_dither image
  else if alg = "halftone" then halftone_dither image 4
  else blue_noise_dither tex image

/-- Color dispatch of src/unnamed/part_013's `dither_image`. -/
def colorApply (alg : String) (palette : List Color) (image : PILImage) : ColorImage :=
  if alg = "floyd-steinberg" then floyd_steinberg_color_dither palette image
  else if alg = "ordered" then ordered_color_dither palette image
  else if alg = "atkinson" then atkinson_color_dither palette image
  else bayer_color_dither palette image

/-- The engine's dither operation, parameterised by the blue-noise
texture in use: validate the algorithm name (the only validation the
source performs — 400 'Invalid algorithm' otherwise), resolve the
palette, then dispatch.  A request whose palette resolves to the empty
list on the color path raises inside numpy's argmin before a single
pixel is produced; that exception is modelled as an error result. -/
def dither_image (tex : Nat → Nat → ℚ) (alg : String) (paletteId : String)
    (customPalette : Option (List Color)) (image : PILImage) :
    Except String PILImage :=
  if alg ∉ ALGORITHM_NAMES then .error "Invalid algorithm"
  else if alg ∈ COLOR_ALGORITHM_NAMES ∧ ¬(paletteId = "bw" ∧ customPalette = none) then
    if customPalette.getD (get_palette paletteId) = [] then .error "ValueError: empty palette"
    else .ok (.rgb (colorApply alg (customPalette.getD (get_palette paletteId)) image))
  else .ok (.gray (grayApply tex alg image))

/-- Whether a dither result is a success. -/
def isOkB (e : Except String PILImage) : Bool :=
  match e with
  | .ok _ => true
  | .error _ => false

/-- Extract the output image of a successful dither call (junk 0×0 image
on the error path, used only under an isOkB hypothesis). -/
def getOutput (e : Except String PILImage) : PILImage :=
  match e with
  | .ok i => i
  | .error _ => .gray ⟨0, 0, fun _ _ => 0⟩

/-- View an output pixel as a color: grayscale samples replicate into the
three channels (how a mode-L value compares against an RGB palette
entry), RGB pixels are taken as stored. -/
def pixColor : PILImage → Nat → Nat → Color
  | .gray g, y, x => (g.pix y x, g.pix y x, g.pix y x)
  | .rgb c, y, x => c.pix y x

/-- A palette is valid when its channels are genuine uint8 values. -/
def ValidPalette (palette : List Color) : Prop :=
  ∀ c ∈ palette, c.1 ≤ 255 ∧ c.2.1 ≤ 255 ∧ c.2.2 ≤ 255

/-!
Forwardness of the source kernels.
-/

theorem forward_fs : Forward fsKernel := by unfold Forward; decide

theorem forward_atkinson : Forward atkinsonKernel := by unfold Forward; decide

theorem forward_stucki : Forward stuckiKernel := by unfold Forward; decide

theorem forward_jarvis : Forward jarvisKernel := by unfold Forward; decide

theorem forward_burkes : Forward burkesKernel := by unfold Forward; decide

theorem forward_sierra : Forward sierraKernel := by unfold Forward; decide

theorem forward_sierra_two_row : Forward sierraTwoRowKernel := by unfold Forward; decide

theorem forward_sierra_lite : Forward sierraLiteKernel := by unfold Forward; decide

/-!
Dimension bookkeeping and egress casts.
-/

theorem convertL_width (p : PILImage) : (convertL p).width = p.width := by
  cases p <;> rfl

theorem convertL_height (p : PILImage) : (convertL p).height = p.height := by
  cases p <;> rfl

theorem convertRGB_width (p : PILImage) : (convertRGB p).width = p.width := by
  cases p <;> rfl

theorem convertRGB_height (p : PILImage) : (convertRGB p).height = p.height := by
  cases p <;> rfl

theorem toByte_zero : toByte 0 = 0 := by
  norm_num [toByte, ratTrunc]

theorem toByte_255 : toByte 255 = 255 := by
  have h : ((255 : ℕ) : ℚ) = (255 : ℚ) := by norm_num
  rw [← h, toByte_natCast (by omega)]

theorem clipByte_ofNat {n : Nat} (h : n ≤ 255) : clipByte ((n : ℕ) : ℚ) = n := by
  have h0 : (0 : ℚ) ≤ (n : ℚ) := by positivity
  have h1 : ((n : ℕ) : ℚ) ≤ 255 := by
    have := (Nat.cast_le (α := ℚ)).mpr h
    norm_num at this ⊢
    exact this
  rw [clipByte, max_eq_left h0, min_eq_left h1, toByte_natCast (by omega)]

theorem colorOutClip_ofColor {c : Color} (h1 : c.1 ≤ 255) (h2 : c.2.1 ≤ 255)
    (h3 : c.2.2 ≤ 255) : colorOutClip (q3OfColor c) = c := by
  cases c with
  | mk r gb =>
    cases gb with
    | mk g b =>
      simp only [colorOutClip, q3OfColor]
      rw [clipByte_ofNat h1, clipByte_ofNat h2, clipByte_ofNat h3]

theorem colorOut_ofColor {c : Color} (h1 : c.1 ≤ 255) (h2 : c.2.1 ≤ 255)
    (h3 : c.2.2 ≤ 255) : colorOut (q3OfColor c) = c := by
  cases c with
  | mk r gb =>
    cases gb with
    | mk g b =>
      simp only [colorOut, q3OfColor]
      have hr : r < 256 := by simp only at h1; omega
      have hg : g < 256 := by simp only at h2; omega
      have hb : b < 256 := by simp only at h3; omega
      rw [toByte_natCast hr, toByte_natCast hg, toByte_natCast hb]

/-!
Specification of the palette quantizer's fold: it returns the first
palette entry attaining the minimal squared distance.
-/

theorem fcc_fold_spec (p : ℤ × ℤ × ℤ) (c : Color) (cs : List Color) :
    (cs.foldl (fun best c2 => if sqDist p c2 < sqDist p best then c2 else best) c) ∈ c :: cs ∧
    (∀ c2 ∈ c :: cs,
      sqDist p (cs.foldl (fun best c2 => if sqDist p c2 < sqDist p best then c2 else best) c) ≤ sqDist p c2) ∧
    ∃ l1 l2, c :: cs =
        l1 ++ (cs.foldl (fun best c2 => if sqDist p c2 < sqDist p best then c2 else best) c) :: l2 ∧
      ∀ c2 ∈ l1,
        sqDist p (cs.foldl (fun best c2 => if sqDist p c2 < sqDist p best then c2 else best) c) < sqDist p c2 := by
  induction cs generalizing c with
  | nil =>
    refine ⟨List.mem_cons_self c [], ?_, [], [], rfl, ?_⟩
    · intro c2 hc2
      rcases List.mem_cons.mp hc2 with rfl | hc2
      · exact le_refl _
      · exact absurd hc2 (List.not_mem_nil c2)
    · intro c2 hc2
      exact absurd hc2 (List.not_mem_nil c2)
  | cons c2 cs ih =>
    simp only [List.foldl_cons]
    by_cases hlt : sqDist p c2 < sqDist p c
    · rw [if_pos hlt]
      rcases ih c2 with ⟨hmem, hmin, l1, l2, hsplit, hstrict⟩
      refine ⟨List.mem_cons_of_mem c hmem, ?_, c :: l1, l2, by rw [List.cons_append, ← hsplit], ?_⟩
      · intro c3 hc3
        rcases List.mem_cons.mp hc3 with rfl | hc3
        · exact le_trans (hmin c2 (List.mem_cons_self c2 cs)) (le_of_lt hlt)
        · exact hmin c3 hc3
      · intro c3 hc3
        rcases List.mem_cons.mp hc3 with rfl | hc3
        · exact lt_of_le_of_lt (hmin c2 (List.mem_cons_self c2 cs)) hlt
        · exact hstrict c3 hc3
    · rw [if_neg hlt]
      have hle : sqDist p c ≤ sqDist p c2 := le_of_not_lt hlt
      rcases ih c with ⟨hmem, hmin, l1, l2, hsplit, hstrict⟩
      refine ⟨?_, ?_, ?_⟩
      · rcases List.mem_cons.mp hmem with heq | hmem2
        · rw [heq]
          exact List.mem_cons_self _ _
        · exact List.mem_cons_of_mem _ (List.mem_cons_of_mem _ hmem2)
      · intro c3 hc3
        rcases List.mem_cons.mp hc3 with rfl | hc3
        · exact hmin c3 (List.mem_cons_self c3 cs)
        · rcases List.mem_cons.mp hc3 with rfl | hc3
          · exact le_trans (hmin c (List.mem_cons_self c cs)) hle
          · exact hmin c3 (List.mem_cons_of_mem c hc3)
      · cases l1 with
        | nil =>
          rw [List.nil_append] at hsplit
          have hc : c = cs.foldl (fun best c2 => if sqDist p c2 < sqDist p best then c2 else best) c := by
            injection hsplit
          refine ⟨[], c2 :: cs, ?_, ?_⟩
          · rw [List.nil_append, ← hc]
          · intro c3 hc3
            exact absurd hc3 (List.not_mem_nil c3)
        | cons a l1t =>
          rw [List.cons_append] at hsplit
          have ha : c = a := by injection hsplit
          have htail : cs = l1t ++
              (cs.foldl (fun best c2 => if sqDist p c2 < sqDist p best then c2 else best) c) :: l2 := by
            injection hsplit
          subst ha
          have hstrictc : sqDist p
              (cs.foldl (fun best c2 => if sqDist p c2 < sqDist p best then c2 else best) c) < sqDist p c :=
            hstrict c (List.mem_cons_self c l1t)
          refine ⟨c :: c2 :: l1t, l2, ?_, ?_⟩
          · rw [List.cons_append, List.cons_append, ← htail]
          · intro c3 hc3
            rcases List.mem_cons.mp hc3 with rfl | hc3
            · exact hstrictc
            · rcases List.mem_cons.mp hc3 with rfl | hc3
              · exact lt_of_lt_of_le hstrictc hle
              · exact hstrict c3 (List.mem_cons_of_mem c hc3)

/-- What `find_closest_color` returns on a nonempty palette: a palette
member of minimal squared distance, the first such member. -/
theorem fcc_spec (p : ℤ × ℤ × ℤ) (pal : List Color) (r : Color)
    (h : find_closest_color p pal = some r) :
    r ∈ pal ∧ (∀ c ∈ pal, sqDist p r ≤ sqDist p c) ∧
    ∃ l1 l2, pal = l1 ++ r :: l2 ∧ ∀ c ∈ l1, sqDist p r < sqDist p c := by
  cases pal with
  | nil => exact absurd h (by simp [find_closest_color])
  | cons c cs =>
    have hr : r = cs.foldl (fun best c2 => if sqDist p c2 < sqDist p best then c2 else best) c := by
      simp only [find_closest_color, Option.some_inj] at h
      exact h.symm
    subst hr
    exact fcc_fold_spec p c cs

theorem fcc_isSome {p : ℤ × ℤ × ℤ} {pal : List Color} (hne : pal ≠ []) :
    ∃ r, find_closest_color p pal = some r := by
  cases pal with
  | nil => exact absurd rfl hne
  | cons c cs => exact ⟨_, rfl⟩

theorem fccD_mem {p : ℤ × ℤ × ℤ} {pal : List Color} (hne : pal ≠ []) :
    fccD p pal ∈ pal := by
  rcases fcc_isSome (p := p) hne with ⟨r, hr⟩
  rw [fccD, hr, Option.getD_some]
  exact (fcc_spec p pal r hr).1

/-!
Pixel-level facts about the grayscale error-diffusion functions.
-/

theorem toByte_quantBW (v : Nat) :
    toByte (quantBW (v : ℚ)) = if 127 < v then 255 else 0 := by
  by_cases h : 127 < v
  · have hq : (127 : ℚ) < (v : ℚ) := by
      have := (Nat.cast_lt (α := ℚ)).mpr h
      push_cast at this ⊢
      exact this
    rw [quantBW, if_pos hq, if_pos h, toByte_255]
  · have hq : ¬(127 : ℚ) < (v : ℚ) := by
      intro hc
      apply h
      have h255 : ((127 : ℕ) : ℚ) < (v : ℚ) := by push_cast; exact hc
      exact (Nat.cast_lt (α := ℚ)).mp h255
    rw [quantBW, if_neg hq, if_neg h, toByte_zero]

theorem quantBW_mem (v : ℚ) : quantBW v = 0 ∨ quantBW v = 255 := by
  rw [quantBW]
  by_cases h : 127 < v
  · rw [if_pos h]; right; rfl
  · rw [if_neg h]; left; rfl

/-- Every in-bounds sample of a grayscale error-diffusion output is 0 or
255 (binary-palette closure). -/
theorem grayED_pix_mem (kern : Kernel) (hf : Forward kern) (image : PILImage)
    (y x : Nat) (hy : y < image.height) (hx : x < image.width) :
    (grayED kern image).pix y x = 0 ∨ (grayED kern image).pix y x = 255 := by
  have hy2 : y < (convertL image).height := by rw [convertL_height]; exact hy
  have hx2 : x < (convertL image).width := by rw [convertL_width]; exact hx
  have hmem := runED_mem (convertL image).width (convertL image).height kern quantBW
    (fun a b => a - b) (fun wt e => e * wt) (fun a b => a + b)
    (fun v => v = 0 ∨ v = 255) quantBW_mem hf y x
    (fun y2 x2 => ((convertL image).pix y2 x2 : ℚ)) hy2 hx2
  rcases hmem with hv | hv
  · left
    show toByte _ = 0
    rw [hv, toByte_zero]
  · right
    show toByte _ = 255
    rw [hv, toByte_255]

/-- On a 1×1 image, a grayscale error-diffusion function thresholds the
single pixel (which for byte values is exactly nearest-of-{0,255}). -/
theorem grayED_one_pix (kern : Kernel) (hf : Forward kern) (v : Nat) :
    (grayED kern (.gray ⟨1, 1, fun _ _ => v⟩)).pix 0 0 = if 127 < v then 255 else 0 := by
  show toByte (runED 1 1 kern quantBW _ _ _ _ 0 0) = _
  rw [runED_one kern quantBW _ _ _ hf]
  exact toByte_quantBW v

/-- On a 1×1 image, a grayscale error-diffusion function never writes
anywhere but the single pixel. -/
theorem grayED_one_other (kern : Kernel) (v : Nat) (hv : v ≤ 255) (y x : Nat)
    (h : ¬(y = 0 ∧ x = 0)) :
    (grayED kern (.gray ⟨1, 1, fun _ _ => v⟩)).pix y x = v := by
  show toByte (runED 1 1 kern quantBW _ _ _ _ y x) = _
  rw [runED_outside 1 1 kern quantBW _ _ _ y x _ (by omega) (by omega)]
  show toByte ((v : ℕ) : ℚ) = v
  exact toByte_natCast (by omega)

/-!
Pixel-level facts about the color error-diffusion functions.
-/

theorem colorED_quant_mem (pal : List Color) (hne : pal ≠ []) (v : Q3) :
    ∃ c ∈ pal, q3OfColor (fccD (trunc3 v) pal) = q3OfColor c :=
  ⟨fccD (trunc3 v) pal, fccD_mem hne, rfl⟩

/-- Palette closure of the color error-diffusion functions: every
in-bounds output pixel is a palette entry. -/
theorem colorED_pix_mem (kern : Kernel) (hf : Forward kern) (pal : List Color)
    (hne : pal ≠ []) (hval : ValidPalette pal) (image : PILImage)
    (y x : Nat) (hy : y < image.height) (hx : x < image.width) :
    (colorED kern pal image).pix y x ∈ pal := by
  have hy2 : y < (convertRGB image).height := by rw [convertRGB_height]; exact hy
  have hx2 : x < (convertRGB image).width := by rw [convertRGB_width]; exact hx
  have hmem := runED_mem (convertRGB image).width (convertRGB image).height kern
    (fun v => q3OfColor (fccD (trunc3 v) pal)) sub3 sc3 add3
    (fun v => ∃ c ∈ pal, v = q3OfColor c)
    (fun v => ⟨fccD (trunc3 v) pal, fccD_mem hne, rfl⟩) hf y x
    (fun y2 x2 => q3OfColor ((convertRGB image).pix y2 x2)) hy2 hx2
  rcases hmem with ⟨c, hc, hvc⟩
  show colorOutClip _ ∈ pal
  rw [hvc, colorOutClip_ofColor (hval c hc).1 (hval c hc).2.1 (hval c hc).2.2]
  exact hc

theorem trunc3_ofColor (c : Color) :
    trunc3 (q3OfColor c) = ((c.1 : ℤ), (c.2.1 : ℤ), (c.2.2 : ℤ)) := by
  simp only [trunc3, q3OfColor, ratTrunc_natCast]

/-- On a 1×1 image, a color error-diffusion function quantizes the single
pixel to the closest palette entry. -/
theorem colorED_one_pix (kern : Kernel) (hf : Forward kern) (pal : List Color)
    (hne : pal ≠ []) (hval : ValidPalette pal) (pc : Color) :
    (colorED kern pal (.rgb ⟨1, 1, fun _ _ => pc⟩)).pix 0 0 =
      fccD ((pc.1 : ℤ), (pc.2.1 : ℤ), (pc.2.2 : ℤ)) pal := by
  show colorOutClip (runED 1 1 kern _ _ _ _ _ 0 0) = _
  rw [runED_one kern _ sub3 sc3 add3 hf]
  show colorOutClip (q3OfColor (fccD (trunc3 (q3OfColor pc)) pal)) = _
  rw [trunc3_ofColor]
  have hc := fccD_mem (p := ((pc.1 : ℤ), (pc.2.1 : ℤ), (pc.2.2 : ℤ))) hne
  exact colorOutClip_ofColor (hval _ hc).1 (hval _ hc).2.1 (hval _ hc).2.2

/-- On a 1×1 image, a color error-diffusion function never writes
anywhere but the single pixel. -/
theorem colorED_one_other (kern : Kernel) (pal : List Color) (pc : Color)
    (h1 : pc.1 ≤ 255) (h2 : pc.2.1 ≤ 255) (h3 : pc.2.2 ≤ 255) (y x : Nat)
    (h : ¬(y = 0 ∧ x = 0)) :
    (colorED kern pal (.rgb ⟨1, 1, fun _ _ => pc⟩)).pix y x = pc := by
  show colorOutClip (runED 1 1 kern _ _ _ _ _ y x) = _
  rw [runED_outside 1 1 kern _ sub3 sc3 add3 y x _ (by omega) (by omega)]
  exact colorOutClip_ofColor h1 h2 h3

/-!
Pixel-level facts about the ordered / Bayer / blue-noise loops.
-/

/-- Pointwise behaviour of `ordered_color_dither`: each in-bounds pixel
is the biased-and-bucketed quantization of its own original value. -/
theorem ordered_color_pix (pal : List Color) (image : PILImage) (y x : Nat)
    (hy : y < image.height) (hx : x < image.width) :
    (ordered_color_dither pal image).pix y x =
      colorOut (orderedPixel thresholdMap pal y x (q3OfColor ((convertRGB image).pix y x))) := by
  have hw : 0 < (convertRGB image).width := by rw [convertRGB_width]; omega
  show colorOut (mapRaster _ _ _ _ y x) = _
  rw [mapRaster_pix (convertRGB image).width (convertRGB image).height _ _ hw y x,
    if_pos ⟨by rw [convertRGB_height]; exact hy, by rw [convertRGB_width]; exact hx⟩]

/-- Pointwise behaviour of `bayer_color_dither`. -/
theorem bayer_color_pix (pal : List Color) (image : PILImage) (y x : Nat)
    (hy : y < image.height) (hx : x < image.width) :
    (bayer_color_dither pal image).pix y x =
      colorOut (orderedPixel bayerMatrix pal y x (q3OfColor ((convertRGB image).pix y x))) := by
  have hw : 0 < (convertRGB image).width := by rw [convertRGB_width]; omega
  show colorOut (mapRaster _ _ _ _ y x) = _
  rw [mapRaster_pix (convertRGB image).width (convertRGB image).height _ _ hw y x,
    if_pos ⟨by rw [convertRGB_height]; exact hy, by rw [convertRGB_width]; exact hx⟩]

/-- The bucketed index of `orderedPixel` always lands inside the sorted
palette, so the output is a palette entry. -/
theorem orderedPixel_mem (m : List (List Nat)) (pal : List Color) (y x : Nat)
    (p : Q3) (hne : pal ≠ []) :
    ∃ c ∈ pal, orderedPixel m pal y x p = q3OfColor c := by
  have hperm := List.perm_insertionSort (fun a b => lumKey a ≤ lumKey b) pal
  have hlen : (sortedByLum pal).length = pal.length := hperm.length_eq
  have hn : 0 < (sortedByLum pal).length := by
    rw [hlen]
    exact List.length_pos.mpr hne
  set n := (sortedByLum pal).length with hndef
  set A := (pixelLum p + ((matAt m y x : ℚ) / 16 - 1/2) / (n : ℚ)) * (n : ℚ) with hA
  have hcast : ((n : ℚ) - 1) = ((n - 1 : ℕ) : ℚ) := by
    rw [Nat.cast_sub (by omega)]
    norm_num
  have hfl : ⌊min (max A 0) ((n : ℚ) - 1)⌋ ≤ (n - 1 : ℕ) := by
    calc ⌊min (max A 0) ((n : ℚ) - 1)⌋ ≤ ⌊((n : ℚ) - 1)⌋ :=
          Int.floor_le_floor (min_le_right _ _)
    _ = ((n - 1 : ℕ) : ℤ) := by rw [hcast, Int.floor_natCast]
  have hidx : (⌊min (max A 0) ((n : ℚ) - 1)⌋).toNat < n := by omega
  refine ⟨(sortedByLum pal).getD (⌊min (max A 0) ((n : ℚ) - 1)⌋).toNat (0, 0, 0), ?_, ?_⟩
  · have hget := List.getD_eq_getElem (sortedByLum pal) (0, 0, 0) hidx
    rw [hget]
    exact hperm.mem_iff.mp (List.getElem_mem _)
  · rfl

/-- Pointwise behaviour of `blue_noise_dither`: threshold each pixel's
normalized value against the tiled texture. -/
theorem blue_noise_pix (tex : Nat → Nat → ℚ) (image : PILImage) (y x : Nat)
    (hy : y < image.height) (hx : x < image.width) :
    (blue_noise_dither tex image).pix y x =
      if tex (y % 64) (x % 64) < ((convertL image).pix y x : ℚ) / 255 then 255 else 0 := by
  have hw : 0 < (convertL image).width := by rw [convertL_width]; omega
  show toByte (mapRaster _ _ _ _ y x) = _
  rw [mapRaster_pix (convertL image).width (convertL image).height _ _ hw y x,
    if_pos ⟨by rw [convertL_height]; exact hy, by rw [convertL_width]; exact hx⟩]
  by_cases hc : tex (y % 64) (x % 64) < ((convertL image).pix y x : ℚ) / 255
  · rw [if_pos hc, if_pos hc, toByte_255]
  · rw [if_neg hc, if_neg hc, toByte_zero]

/-!
Halftone: fold bookkeeping.  The cell loops only ever write inside
complete cells (rows below d·(h/d), columns below d·(w/d)) and only ever
read cell samples, which all lie inside the image.
-/

theorem foldl_pres_mem {β : Type} (P : (Nat → Nat → Nat) → Prop) (l : List β)
    (f : (Nat → Nat → Nat) → β → (Nat → Nat → Nat))
    (hf : ∀ o b, b ∈ l → P o → P (f o b)) (o : Nat → Nat → Nat) (ho : P o) :
    P (l.foldl f o) := by
  induction l generalizing o with
  | nil => exact ho
  | cons b t ih =>
    rw [List.foldl_cons]
    exact ih (fun o2 b2 hb2 ho2 => hf o2 b2 (List.mem_cons_of_mem b hb2) ho2)
      (f o b) (hf o b (List.mem_cons_self b t) ho)

theorem mem_cellStarts {cy n d : Nat} (h : cy ∈ cellStarts n d) :
    ∃ q, q < n / d ∧ cy = q * d := by
  simp only [cellStarts, List.mem_map, List.mem_range] at h
  rcases h with ⟨q, hq, rfl⟩
  exact ⟨q, hq, rfl⟩

/-- A sample read of a complete cell stays strictly below the covered
region boundary d·(n/d). -/
theorem cellStarts_add_lt {cy n d i : Nat} (h : cy ∈ cellStarts n d) (hi : i < d) :
    cy + i < d * (n / d) := by
  rcases mem_cellStarts h with ⟨q, hq, rfl⟩
  calc q * d + i < q * d + d := by omega
  _ = (q + 1) * d := by ring
  _ ≤ (n / d) * d := Nat.mul_le_mul_right d (by omega)
  _ = d * (n / d) := Nat.mul_comm _ _

/-- A sample read of a complete cell is inside the image. -/
theorem cellStarts_read_lt {cy n d i : Nat} (h : cy ∈ cellStarts n d) (hi : i < d) :
    cy + i < n := by
  have h1 := cellStarts_add_lt h hi
  have h2 : d * (n / d) ≤ n := by
    rw [Nat.mul_comm]
    exact Nat.div_mul_le_self n d
  omega

/-- `applyCell` does not touch positions it cannot reach. -/
theorem applyCell_untouched (arr : Nat → Nat → Nat) (d cy cx : Nat)
    (o : Nat → Nat → Nat) (y0 x0 : Nat)
    (hne : ∀ i j, i < d → j < d → ¬(cy + i = y0 ∧ cx + j = x0)) :
    applyCell arr d cy cx o y0 x0 = o y0 x0 := by
  unfold applyCell
  refine foldl_pres_mem (fun o2 => o2 y0 x0 = o y0 x0) _ _ ?_ o rfl
  intro o1 i hi h1
  refine foldl_pres_mem (fun o2 => o2 y0 x0 = o y0 x0) _ _ ?_ o1 h1
  intro o2 j hj h2
  rw [List.mem_range] at hi hj
  split
  · rw [upd_other _ _ (by
      intro hc
      exact hne i j hi hj ⟨hc.1.symm, hc.2.symm⟩)]
    exact h2
  · exact h2

/-- Margins: every sample in the partial-cell margin (full rows from
d·(h/d) down, full columns from d·(w/d) right) keeps the white
background. -/
theorem halftoneRun_margin (arr : Nat → Nat → Nat) (w h d y0 x0 : Nat)
    (hm : d * (h / d) ≤ y0 ∨ d * (w / d) ≤ x0) :
    halftoneRun arr w h d y0 x0 = 255 := by
  unfold halftoneRun
  refine foldl_pres_mem (fun o => o y0 x0 = 255) _ _ ?_ _ rfl
  intro o cy hcy ho
  refine foldl_pres_mem (fun o2 => o2 y0 x0 = 255) _ _ ?_ o ho
  intro o2 cx hcx ho2
  rw [applyCell_untouched _ _ _ _ _ _ _ ?_]
  · exact ho2
  · intro i j hi hj hc
    rcases hm with hm | hm
    · have := cellStarts_add_lt hcy hi
      omega
    · have := cellStarts_add_lt hcx hj
      omega

/-- Binary closure of the halftone output: white background, black
dots. -/
theorem halftoneRun_mem (arr : Nat → Nat → Nat) (w h d y0 x0 : Nat) :
    halftoneRun arr w h d y0 x0 = 0 ∨ halftoneRun arr w h d y0 x0 = 255 := by
  unfold halftoneRun
  have hmain : (fun o : Nat → Nat → Nat => ∀ y x, o y x = 0 ∨ o y x = 255)
      ((cellStarts h d).foldl (fun o cy =>
        (cellStarts w d).foldl (fun o2 cx => applyCell arr d cy cx o2) o)
        (fun _ _ => 255)) := by
    refine foldl_pres_mem (fun o => ∀ y x, o y x = 0 ∨ o y x = 255) _ _ ?_ _
      (fun _ _ => Or.inr rfl)
    intro o cy hcy ho
    refine foldl_pres_mem (fun o => ∀ y x, o y x = 0 ∨ o y x = 255) _ _ ?_ o ho
    intro o2 cx hcx ho2
    unfold applyCell
    refine foldl_pres_mem (fun o => ∀ y x, o y x = 0 ∨ o y x = 255) _ _ ?_ o2 ho2
    intro o3 i hi h3
    refine foldl_pres_mem (fun o => ∀ y x, o y x = 0 ∨ o y x = 255) _ _ ?_ o3 h3
    intro o4 j hj h4
    intro y2 x2
    split
    · show upd o4 _ _ 0 y2 x2 = 0 ∨ _
      unfold upd
      split
      · exact Or.inl rfl
      · exact h4 y2 x2
    · exact h4 y2 x2
  exact hmain y0 x0

/-- Pointwise-equality congruence for folds of state transformers. -/
theorem foldl_ptwise_mem {β : Type} (l : List β)
    (f f2 : (Nat → Nat → Nat) → β → (Nat → Nat → Nat))
    (hcong : ∀ o o2 b, b ∈ l → (∀ y x, o y x = o2 y x) →
      ∀ y x, f o b y x = f2 o2 b y x)
    (o o2 : Nat → Nat → Nat) (ho : ∀ y x, o y x = o2 y x) :
    ∀ y x, l.foldl f o y x = l.foldl f2 o2 y x := by
  induction l generalizing o o2 with
  | nil => exact ho
  | cons b t ih =>
    rw [List.foldl_cons, List.foldl_cons]
    exact ih (fun g g2 b2 hb2 hg => hcong g g2 b2 (List.mem_cons_of_mem b hb2) hg)
      (f o b) (f2 o2 b) (hcong o o2 b (List.mem_cons_self b t) ho)

/-- The cell mean only reads the cell's own samples, so it is determined
by the in-bounds samples. -/
theorem cellMean_congr (arr arr2 : Nat → Nat → Nat) (w h d cy cx : Nat)
    (hagree : ∀ y x, y < h → x < w → arr y x = arr2 y x)
    (hcy : ∀ i, i < d → cy + i < h) (hcx : ∀ j, j < d → cx + j < w) :
    cellMean arr d cy cx = cellMean arr2 d cy cx := by
  unfold cellMean
  congr 1
  apply List.foldl_ext
  intro acc i hi
  apply List.foldl_ext
  intro acc2 j hj
  rw [List.mem_range] at hi hj
  rw [hagree _ _ (hcy i hi) (hcx j hj)]

/-- Locality of the halftone pass: two sample grids that agree on the
image rectangle produce identical outputs everywhere — out-of-bounds
samples are never read. -/
theorem halftoneRun_congr (arr arr2 : Nat → Nat → Nat) (w h d : Nat)
    (hagree : ∀ y x, y < h → x < w → arr y x = arr2 y x) :
    ∀ y x, halftoneRun arr w h d y x = halftoneRun arr2 w h d y x := by
  unfold halftoneRun
  apply foldl_ptwise_mem
  · intro o o2 cy hcy ho
    apply foldl_ptwise_mem
    · intro o3 o4 cx hcx ho3
      have hmean : cellMean arr d cy cx = cellMean arr2 d cy cx :=
        cellMean_congr arr arr2 w h d cy cx hagree
          (fun i hi => cellStarts_read_lt hcy hi)
          (fun j hj => cellStarts_read_lt hcx hj)
      unfold applyCell
      rw [hmean]
      apply foldl_ptwise_mem
      · intro o5 o6 i hi ho5
        apply foldl_ptwise_mem
        · intro o7 o8 j hj ho7
          intro y2 x2
          split
          · unfold upd
            split
            · rfl
            · exact ho7 y2 x2
          · exact ho7 y2 x2
        · exact ho5
      · exact ho3
    · exact ho
  · intro y x
    rfl

/-!
Shape bookkeeping for every algorithm and for the dispatch.
-/

theorem grayED_width (kern : Kernel) (image : PILImage) :
    (grayED kern image).width = image.width := convertL_width image

theorem grayED_height (kern : Kernel) (image : PILImage) :
    (grayED kern image).height = image.height := convertL_height image

theorem ordered_dither_width (image : PILImage) :
    (ordered_dither image).width = image.width := convertL_width image

theorem ordered_dither_height (image : PILImage) :
    (ordered_dither image).height = image.height := convertL_height image

theorem bayer_dither_width (image : PILImage) :
    (bayer_dither image).width = image.width := convertL_width image

theorem bayer_dither_height (image : PILImage) :
    (bayer_dither image).height = image.height := convertL_height image

theorem halftone_dither_width (image : PILImage) (d : Nat) :
    (halftone_dither image d).width = image.width := convertL_width image

theorem halftone_dither_height (image : PILImage) (d : Nat) :
    (halftone_dither image d).height = image.height := convertL_height image

theorem blue_noise_dither_width (tex : Nat → Nat → ℚ) (image : PILImage) :
    (blue_noise_dither tex image).width = image.width := convertL_width image

theorem blue_noise_dither_height (tex : Nat → Nat → ℚ) (image : PILImage) :
    (blue_noise_dither tex image).height = image.height := convertL_height image

theorem colorED_width (kern : Kernel) (pal : List Color) (image : PILImage) :
    (colorED kern pal image).width = image.width := convertRGB_width image

theorem colorED_height (kern : Kernel) (pal : List Color) (image : PILImage) :
    (colorED kern pal image).height = image.height := convertRGB_height image

theorem ordered_color_width (pal : List Color) (image : PILImage) :
    (ordered_color_dither pal image).width = image.width := convertRGB_width image

theorem ordered_color_height (pal : List Color) (image : PILImage) :
    (ordered_color_dither pal image).height = image.height := convertRGB_height image

theorem bayer_color_width (pal : List Color) (image : PILImage) :
    (bayer_color_dither pal image).width = image.width := convertRGB_width image

theorem bayer_color_height (pal : List Color) (image : PILImage) :
    (bayer_color_dither pal image).height = image.height := convertRGB_height image

theorem floyd_steinberg_dither_width (image : PILImage) :
    (floyd_steinberg_dither image).width = image.width := convertL_width image

theorem floyd_steinberg_dither_height (image : PILImage) :
    (floyd_steinberg_dither image).height = image.height := convertL_height image

theorem atkinson_dither_width (image : PILImage) :
    (atkinson_dither image).width = image.width := convertL_width image

theorem atkinson_dither_height (image : PILImage) :
    (atkinson_dither image).height = image.height := convertL_height image

theorem stucki_dither_width (image : PILImage) :
    (stucki_dither image).width = image.width := convertL_width image

theorem stucki_dither_height (image : PILImage) :
    (stucki_dither image).height = image.height := convertL_height image

theorem jarvis_dither_width (image : PILImage) :
    (jarvis_dither image).width = image.width := convertL_width image

theorem jarvis_dither_height (image : PILImage) :
    (jarvis_dither image).height = image.height := convertL_height image

theorem burkes_dither_width (image : PILImage) :
    (burkes_dither image).width = image.width := convertL_width image

theorem burkes_dither_height (image : PILImage) :
    (burkes_dither image).height = image.height := convertL_height image

theorem sierra_dither_width (image : PILImage) :
    (sierra_dither image).width = image.width := convertL_width image

theorem sierra_dither_height (image : PILImage) :
    (sierra_dither image).height = image.height := convertL_height image

theorem sierra_two_row_dither_width (image : PILImage) :
    (sierra_two_row_dither image).width = image.width := convertL_width image

theorem sierra_two_row_dither_height (image : PILImage) :
    (sierra_two_row_dither image).height = image.height := convertL_height image

theorem sierra_lite_dither_width (image : PILImage) :
    (sierra_lite_dither image).width = image.width := convertL_width image

theorem sierra_lite_dither_height (image : PILImage) :
    (sierra_lite_dither image).height = image.height := convertL_height image

theorem fs_color_width (pal : List Color) (image : PILImage) :
    (floyd_steinberg_color_dither pal image).width = image.width := convertRGB_width image

theorem fs_color_height (pal : List Color) (image : PILImage) :
    (floyd_steinberg_color_dither pal image).height = image.height := convertRGB_height image

theorem atkinson_color_width (pal : List Color) (image : PILImage) :
    (atkinson_color_dither pal image).width = image.width := convertRGB_width image

theorem atkinson_color_height (pal : List Color) (image : PILImage) :
    (atkinson_color_dither pal image).height = image.height := convertRGB_height image

theorem grayApply_width (tex : Nat → Nat → ℚ) (alg : String) (image : PILImage) :
    (grayApply tex alg image).width = image.width := by
  unfold grayApply
  simp only [apply_ite GrayImage.width, floyd_steinberg_dither_width,
    ordered_dither_width, atkinson_dither_width, bayer_dither_width,
    stucki_dither_width, jarvis_dither_width, burkes_dither_width,
    sierra_dither_width, sierra_two_row_dither_width, sierra_lite_dither_width,
    halftone_dither_width, blue_noise_dither_width, ite_self]

theorem grayApply_height (tex : Nat → Nat → ℚ) (alg : String) (image : PILImage) :
    (grayApply tex alg image).height = image.height := by
  unfold grayApply
  simp only [apply_ite GrayImage.height, floyd_steinberg_dither_height,
    ordered_dither_height, atkinson_dither_height, bayer_dither_height,
    stucki_dither_height, jarvis_dither_height, burkes_dither_height,
    sierra_dither_height, sierra_two_row_dither_height, sierra_lite_dither_height,
    halftone_dither_height, blue_noise_dither_height, ite_self]

theorem colorApply_width (alg : String) (pal : List Color) (image : PILImage) :
    (colorApply alg pal image).width = image.width := by
  unfold colorApply
  simp only [apply_ite ColorImage.width, fs_color_width, ordered_color_width,
    atkinson_color_width, bayer_color_width, ite_self]

theorem colorApply_height (alg : String) (pal : List Color) (image : PILImage) :
    (colorApply alg pal image).height = image.height := by
  unfold colorApply
  simp only [apply_ite ColorImage.height, fs_color_height, ordered_color_height,
    atkinson_color_height, bayer_color_height, ite_self]

/-!
Closure at the dispatch level.
-/

/-- Every in-bounds sample of any grayscale-path algorithm is 0 or 255. -/
theorem grayApply_pix_mem (tex : Nat → Nat → ℚ) (alg : String) (image : PILImage)
    (y x : Nat) (hy : y < image.height) (hx : x < image.width) :
    (grayApply tex alg image).pix y x = 0 ∨ (grayApply tex alg image).pix y x = 255 := by
  unfold grayApply
  by_cases h1 : alg = "floyd-steinberg"
  · rw [if_pos h1]
    exact grayED_pix_mem fsKernel forward_fs image y x hy hx
  rw [if_neg h1]
  by_cases h2 : alg = "ordered"
  · rw [if_pos h2]
    by_cases hc : 16 * matAt thresholdMap y x < (convertL image).pix y x
    · right
      show (if 16 * matAt thresholdMap y x < (convertL image).pix y x then (255 : Nat) else 0) = 255
      rw [if_pos hc]
    · left
      show (if 16 * matAt thresholdMap y x < (convertL image).pix y x then (255 : Nat) else 0) = 0
      rw [if_neg hc]
  rw [if_neg h2]
  by_cases h3 : alg = "atkinson"
  · rw [if_pos h3]
    exact grayED_pix_mem atkinsonKernel forward_atkinson image y x hy hx
  rw [if_neg h3]
  by_cases h4 : alg = "bayer"
  · rw [if_pos h4]
    by_cases hc : 16 * matAt bayerMatrix y x < (convertL image).pix y x
    · right
      show (if 16 * matAt bayerMatrix y x < (convertL image).pix y x then (255 : Nat) else 0) = 255
      rw [if_pos hc]
    · left
      show (if 16 * matAt bayerMatrix y x < (convertL image).pix y x then (255 : Nat) else 0) = 0
      rw [if_neg hc]
  rw [if_neg h4]
  by_cases h5 : alg = "stucki"
  · rw [if_pos h5]
    exact grayED_pix_mem stuckiKernel forward_stucki image y x hy hx
  rw [if_neg h5]
  by_cases h6 : alg = "jarvis"
  · rw [if_pos h6]
    exact grayED_pix_mem jarvisKernel forward_jarvis image y x hy hx
  rw [if_neg h6]
  by_cases h7 : alg = "burkes"
  · rw [if_pos h7]
    exact grayED_pix_mem burkesKernel forward_burkes image y x hy hx
  rw [if_neg h7]
  by_cases h8 : alg = "sierra"
  · rw [if_pos h8]
    exact grayED_pix_mem sierraKernel forward_sierra image y x hy hx
  rw [if_neg h8]
  by_cases h9 : alg = "sierra-two-row"
  · rw [if_pos h9]
    exact grayED_pix_mem sierraTwoRowKernel forward_sierra_two_row image y x hy hx
  rw [if_neg h9]
  by_cases h10 : alg = "sierra-lite"
  · rw [if_pos h10]
    exact grayED_pix_mem sierraLiteKernel forward_sierra_lite image y x hy hx
  rw [if_neg h10]
  by_cases h11 : alg = "halftone"
  · rw [if_pos h11]
    exact halftoneRun_mem _ _ _ 4 y x
  rw [if_neg h11]
  rw [blue_noise_pix tex image y x hy hx]
  split
  · right; rfl
  · left; rfl

/-- Every in-bounds pixel of any color-path algorithm is a palette
entry. -/
theorem colorApply_pix_mem (alg : String) (pal : List Color) (hne : pal ≠ [])
    (hval : ValidPalette pal) (image : PILImage)
    (y x : Nat) (hy : y < image.height) (hx : x < image.width) :
    (colorApply alg pal image).pix y x ∈ pal := by
  unfold colorApply
  by_cases h1 : alg = "floyd-steinberg"
  · rw [if_pos h1]
    exact colorED_pix_mem fsKernel forward_fs pal hne hval image y x hy hx
  rw [if_neg h1]
  by_cases h2 : alg = "ordered"
  · rw [if_pos h2]
    rw [ordered_color_pix pal image y x hy hx]
    rcases orderedPixel_mem thresholdMap pal y x (q3OfColor ((convertRGB image).pix y x)) hne
      with ⟨c, hc, hcv⟩
    rw [hcv, colorOut_ofColor (hval c hc).1 (hval c hc).2.1 (hval c hc).2.2]
    exact hc
  rw [if_neg h2]
  by_cases h3 : alg = "atkinson"
  · rw [if_pos h3]
    exact colorED_pix_mem atkinsonKernel forward_atkinson pal hne hval image y x hy hx
  rw [if_neg h3]
  rw [bayer_color_pix pal image y x hy hx]
  rcases orderedPixel_mem bayerMatrix pal y x (q3OfColor ((convertRGB image).pix y x)) hne
    with ⟨c, hc, hcv⟩
  rw [hcv, colorOut_ofColor (hval c hc).1 (hval c hc).2.1 (hval c hc).2.2]
  exact hc

/-!
Blue-noise cache state machine (C8).  The module-level BLUE_NOISE_MAP of
the source is None until the first blue-noise call generates the texture,
and holds that texture for the rest of the process.
-/

/-- The process-wide cache: `None` before first use, then the generated
texture. -/
def BNState := Option (Nat → Nat → ℚ)

/-- One engine call against the cache: blue-noise requests generate the
texture on first use and cache it; every other algorithm leaves the cache
alone.  `gen` is the (deterministic) result of `generate_blue_noise`. -/
def dither_call (gen : Nat → Nat → ℚ) (st : BNState) (alg pid : String)
    (custom : Option (List Color)) (image : PILImage) :
    Except String PILImage × BNState :=
  match st with
  | none => (dither_image gen alg pid custom image,
      if alg = "blue-noise" then some gen else none)
  | some t => (dither_image t alg pid custom image, some t)

/-- The cache states reachable in a process whose generator is `gen`:
still empty, or filled with the generated texture. -/
def BNReachable (gen : Nat → Nat → ℚ) (st : BNState) : Prop :=
  st = none ∨ st = some gen

/-- C8: Determinism.  Two engine calls with identical algorithm, palette
request and input image return identical outputs, whatever reachable
cache states the process is in at the two calls — the blue-noise texture
used is always the one deterministic generated texture, cached after
first use.  Reachability is preserved, so this covers every pair of calls
in a process trace. -/
theorem dither_call_deterministic (gen : Nat → Nat → ℚ) (st1 st2 : BNState)
    (h1 : BNReachable gen st1) (h2 : BNReachable gen st2)
    (alg pid : String) (custom : Option (List Color)) (image : PILImage) :
    (dither_call gen st1 alg pid custom image).1 =
      (dither_call gen st2 alg pid custom image).1 ∧
    BNReachable gen (dither_call gen st1 alg pid custom image).2 := by
  rcases h1 with rfl | rfl <;> rcases h2 with rfl | rfl <;>
    refine ⟨rfl, ?_⟩ <;> simp only [dither_call] <;>
    first
      | (right; rfl)
      | (by_cases hb : alg = "blue-noise"
         · rw [if_pos hb]; right; rfl
         · rw [if_neg hb]; left; rfl)

/-- A 1×1 grayscale probe image. -/
def grayUnit (v : Nat) : PILImage := .gray ⟨1, 1, fun _ _ => v⟩

/-- A 1×1 RGB probe image. -/
def rgbUnit (p : Color) : PILImage := .rgb ⟨1, 1, fun _ _ => p⟩

/-- Witness for C8: a call made with an empty cache and a call made after
the texture has been cached give the same answer. -/
theorem dither_call_deterministic_witness :
    (dither_call BLUE_NOISE_SOURCE none "blue-noise" "bw" none (grayUnit 90)).1 =
      (dither_call BLUE_NOISE_SOURCE (some BLUE_NOISE_SOURCE) "blue-noise" "bw" none (grayUnit 90)).1 :=
  (dither_call_deterministic BLUE_NOISE_SOURCE none (some BLUE_NOISE_SOURCE)
    (Or.inl rfl) (Or.inr rfl) "blue-noise" "bw" none (grayUnit 90)).1

/-- Sum of the declared weights of a kernel table. -/
def kernelWeightSum (k : Kernel) : ℚ := (k.map (fun e => e.2.2)).sum

/-- C9: each full error-diffusion kernel's declared weights sum to
exactly 1 (hence within any 1e-9 tolerance), and Atkinson's sum to
6/8. -/
theorem kernel_weight_sums :
    kernelWeightSum fsKernel = 1 ∧
    kernelWeightSum stuckiKernel = 1 ∧
    kernelWeightSum jarvisKernel = 1 ∧
    kernelWeightSum burkesKernel = 1 ∧
    kernelWeightSum sierraKernel = 1 ∧
    kernelWeightSum sierraTwoRowKernel = 1 ∧
    kernelWeightSum sierraLiteKernel = 1 ∧
    kernelWeightSum atkinsonKernel = 6/8 := by
  refine ⟨?_, ?_, ?_, ?_, ?_, ?_, ?_, ?_⟩ <;>
    norm_num [kernelWeightSum, fsKernel, stuckiKernel, jarvisKernel, burkesKernel,
      sierraKernel, sierraTwoRowKernel, sierraLiteKernel, atkinsonKernel]

/-- C10: `get_palette` never fails — it returns the palette registered
under a recognized name and the black/white palette for every other
name. -/
theorem get_palette_total :
    (∀ name p, PALETTES.lookup name = some p → get_palette name = p) ∧
    (∀ name, PALETTES.lookup name = none → get_palette name = bwPalette) := by
  constructor
  · intro name p h
    rw [get_palette, h, Option.getD_some]
  · intro name h
    rw [get_palette, h, Option.getD_none]

/-- Witness for C10: a registered name returns its palette, an unknown
name falls back to black/white. -/
theorem get_palette_total_witness :
    get_palette "gameboy" = [(15, 56, 15), (48, 98, 48), (139, 172, 15), (155, 188, 15)] ∧
    get_palette "vaporwave" = bwPalette :=
  ⟨get_palette_total.1 "gameboy" _ (by decide), get_palette_total.2 "vaporwave" (by decide)⟩


/-!
C5: the palette quantizer.
-/

/-- Modelled from the spec: a variant of the quantizer that first clamps
each incoming channel to [0, 255], as §4.5 of the spec describes
("clamp each incoming channel to [0, 255]; compute squared Euclidean
distance ..."), for comparison with the source's `find_closest_color`. -/
def find_closest_color_clamped (p : ℤ × ℤ × ℤ) (palette : List Color) : Option Color :=
  find_closest_color (min (max p.1 0) 255, min (max p.2.1 0) 255, min (max p.2.2 0) 255) palette

/-- C5 (amended): on every nonempty palette the quantizer succeeds and
returns the palette entry of minimal squared Euclidean distance to the
incoming (unclamped) channels, breaking ties by first occurrence: the
returned entry splits the palette so that every earlier entry is strictly
farther.  No clamping is performed (see the counterexample). -/
theorem palette_quantizer_argmin :
    (∀ (p : ℤ × ℤ × ℤ) (pal : List Color), pal ≠ [] →
      ∃ r, find_closest_color p pal = some r) ∧
    ∀ (p : ℤ × ℤ × ℤ) (pal : List Color) (r : Color),
      find_closest_color p pal = some r →
      r ∈ pal ∧ (∀ c ∈ pal, sqDist p r ≤ sqDist p c) ∧
      ∃ l1 l2, pal = l1 ++ r :: l2 ∧ ∀ c ∈ l1, sqDist p r < sqDist p c := by
  constructor
  · intro p pal hne
    exact fcc_isSome hne
  · intro p pal r h
    exact fcc_spec p pal r h

/-- Witness for C5: concrete quantization of an out-of-range pixel. -/
theorem palette_quantizer_argmin_witness :
    (300, 0, 0) ∈ ([((255 : Nat), (20 : Nat), (0 : Nat)), (250, 0, 0)] : List Color) ∨
    ((255, 20, 0) ∈ ([((255 : Nat), (20 : Nat), (0 : Nat)), (250, 0, 0)] : List Color) ∧
      ∀ c ∈ ([((255 : Nat), (20 : Nat), (0 : Nat)), (250, 0, 0)] : List Color),
        sqDist (300, 0, 0) (255, 20, 0) ≤ sqDist (300, 0, 0) c) := by
  have h := palette_quantizer_argmin.2 (300, 0, 0)
    [((255 : Nat), (20 : Nat), (0 : Nat)), (250, 0, 0)] (255, 20, 0) (by decide)
  exact Or.inr ⟨h.1, h.2.1⟩

/-- Counterexample for C5 as stated: the source quantizer does not clamp.
At pixel (300, 0, 0) with palette [(255,20,0), (250,0,0)] the unclamped
distances pick (255,20,0), while the spec's clamp-first algorithm picks
(250,0,0). -/
theorem palette_quantizer_clamp_cex :
    find_closest_color (300, 0, 0) [((255 : Nat), (20 : Nat), (0 : Nat)), (250, 0, 0)] =
      some (255, 20, 0) ∧
    find_closest_color_clamped (300, 0, 0) [((255 : Nat), (20 : Nat), (0 : Nat)), (250, 0, 0)] =
      some (250, 0, 0) := by
  constructor
  · decide
  · decide

/-!
C6: shape preservation.
-/

/-- C6 (amended): every successful dither call preserves width and
height; the channel count is not preserved but forced to the dispatched
family's working mode — 3 on the color path, 1 on the grayscale path. -/
theorem dither_shape_preservation (tex : Nat → Nat → ℚ) (alg pid : String)
    (custom : Option (List Color)) (image : PILImage) (out : PILImage)
    (h : dither_image tex alg pid custom image = .ok out) :
    out.width = image.width ∧ out.height = image.height ∧
    out.channels = (if alg ∈ COLOR_ALGORITHM_NAMES ∧ ¬(pid = "bw" ∧ custom = none)
      then 3 else 1) := by
  unfold dither_image at h
  by_cases h1 : alg ∉ ALGORITHM_NAMES
  · rw [if_pos h1] at h
    exact absurd h (by simp)
  rw [if_neg h1] at h
  by_cases h2 : alg ∈ COLOR_ALGORITHM_NAMES ∧ ¬(pid = "bw" ∧ custom = none)
  · rw [if_pos h2] at h
    by_cases h3 : custom.getD (get_palette pid) = []
    · rw [if_pos h3] at h
      exact absurd h (by simp)
    · rw [if_neg h3] at h
      have hout : out = .rgb (colorApply alg (custom.getD (get_palette pid)) image) := by
        injection h with h4
        exact h4.symm
      subst hout
      refine ⟨colorApply_width alg _ image, colorApply_height alg _ image, ?_⟩
      rw [if_pos h2]
      rfl
  · rw [if_neg h2] at h
    have hout : out = .gray (grayApply tex alg image) := by
      injection h with h4
      exact h4.symm
    subst hout
    refine ⟨grayApply_width tex alg image, grayApply_height tex alg image, ?_⟩
    rw [if_neg h2]
    rfl

/-- Witness for C6: a successful call on a 1×1 image. -/
theorem dither_shape_preservation_witness :
    (PILImage.gray (grayApply BLUE_NOISE_SOURCE "stucki" (grayUnit 100))).width =
      (grayUnit 100).width ∧
    (PILImage.gray (grayApply BLUE_NOISE_SOURCE "stucki" (grayUnit 100))).height =
      (grayUnit 100).height := by
  have h := dither_shape_preservation BLUE_NOISE_SOURCE "stucki" "bw" none (grayUnit 100)
    (.gray (grayApply BLUE_NOISE_SOURCE "stucki" (grayUnit 100)))
    (by simp [dither_image, ALGORITHM_NAMES, COLOR_ALGORITHM_NAMES])
  exact ⟨h.1, h.2.1⟩

/-- Counterexample for C6 as stated: an RGB input dithered with stucki
comes back with 1 channel, not 3 — the grayscale algorithms convert to
mode L. -/
theorem dither_channels_cex :
    (rgbUnit (10, 20, 30)).channels = 3 ∧
    isOkB (dither_image BLUE_NOISE_SOURCE "stucki" "bw" none (rgbUnit (10, 20, 30))) = true ∧
    (getOutput (dither_image BLUE_NOISE_SOURCE "stucki" "bw" none (rgbUnit (10, 20, 30)))).channels = 1 := by
  refine ⟨rfl, ?_, ?_⟩ <;>
    simp [dither_image, ALGORITHM_NAMES, COLOR_ALGORITHM_NAMES, isOkB, getOutput,
      PILImage.channels]

/-!
C2: when the dither operation fails.
-/

/-- C2 (amended): a dither call fails exactly when the algorithm
identifier is unrecognized, or when the color path is taken with an
empty palette (numpy raises inside the first quantization).  Palette
size is otherwise never validated: in particular a single-entry palette
is accepted (see the counterexample). -/
theorem dither_failure_iff (tex : Nat → Nat → ℚ) (alg pid : String)
    (custom : Option (List Color)) (image : PILImage) :
    isOkB (dither_image tex alg pid custom image) = false ↔
      (alg ∉ ALGORITHM_NAMES ∨
        (alg ∈ COLOR_ALGORITHM_NAMES ∧ ¬(pid = "bw" ∧ custom = none) ∧
          custom.getD (get_palette pid) = [])) := by
  unfold dither_image
  by_cases h1 : alg ∉ ALGORITHM_NAMES
  · rw [if_pos h1]
    simp [isOkB, h1]
  rw [if_neg h1]
  by_cases h2 : alg ∈ COLOR_ALGORITHM_NAMES ∧ ¬(pid = "bw" ∧ custom = none)
  · rw [if_pos h2]
    by_cases h3 : custom.getD (get_palette pid) = []
    · rw [if_pos h3]
      simp only [isOkB]
      constructor
      · intro _
        exact Or.inr ⟨h2.1, h2.2, h3⟩
      · intro _
        trivial
    · rw [if_neg h3]
      simp only [isOkB]
      constructor
      · intro hc
        exact absurd hc (by simp)
      · intro hc
        rcases hc with hc | hc
        · exact absurd hc (by simp at h1; exact fun h => h h1)
        · exact absurd hc.2.2 h3
  · rw [if_neg h2]
    simp only [isOkB]
    constructor
    · intro hc
      exact absurd hc (by simp)
    · intro hc
      rcases hc with hc | hc
      · exact absurd hc (by simp at h1; exact fun h => h h1)
      · exact absurd ⟨hc.1, hc.2.1⟩ h2

/-- Counterexample for C2 as stated: a palette with a single entry is not
rejected — the call succeeds (returning a constant-color image), although
the claim requires it to fail. -/
theorem dither_failure_cex :
    (some [((0 : Nat), (0 : Nat), (0 : Nat))] : Option (List Color)).getD
        (get_palette "bw") = [(0, 0, 0)] ∧
    ([((0 : Nat), (0 : Nat), (0 : Nat))] : List Color).length < 2 ∧
    isOkB (dither_image BLUE_NOISE_SOURCE "floyd-steinberg" "bw"
      (some [(0, 0, 0)]) (grayUnit 100)) = true := by
  refine ⟨rfl, by norm_num, ?_⟩
  simp [dither_image, ALGORITHM_NAMES, COLOR_ALGORITHM_NAMES, isOkB]


/-!
C1: palette closure of the dither operation.
-/

/-- C1 (amended): every successful dither call is closed over a palette —
but which palette depends on the path.  On the color path (the four
algorithms with color variants, requested with a non-default palette)
every output pixel is an entry of the supplied palette; on the grayscale
path (the remaining eight algorithms, and the default black/white
requests) every output sample is 0 or 255, i.e. the output is closed over
the black/white palette only, whatever palette was supplied. -/
theorem dither_palette_closure (tex : Nat → Nat → ℚ) (alg pid : String)
    (custom : Option (List Color)) (image : PILImage) (out : PILImage)
    (h : dither_image tex alg pid custom image = .ok out)
    (hval : ValidPalette (custom.getD (get_palette pid)))
    (y x : Nat) (hy : y < out.height) (hx : x < out.width) :
    pixColor out y x ∈
      (if alg ∈ COLOR_ALGORITHM_NAMES ∧ ¬(pid = "bw" ∧ custom = none)
       then custom.getD (get_palette pid) else bwPalette) := by
  unfold dither_image at h
  by_cases h1 : alg ∉ ALGORITHM_NAMES
  · rw [if_pos h1] at h
    exact absurd h (by simp)
  rw [if_neg h1] at h
  by_cases h2 : alg ∈ COLOR_ALGORITHM_NAMES ∧ ¬(pid = "bw" ∧ custom = none)
  · rw [if_pos h2] at h
    by_cases h3 : custom.getD (get_palette pid) = []
    · rw [if_pos h3] at h
      exact absurd h (by simp)
    · rw [if_neg h3] at h
      have hout : out = .rgb (colorApply alg (custom.getD (get_palette pid)) image) := by
        injection h with h4
        exact h4.symm
      subst hout
      rw [if_pos h2]
      show (colorApply alg (custom.getD (get_palette pid)) image).pix y x ∈ _
      apply colorApply_pix_mem alg _ h3 hval image y x
      · have := colorApply_height alg (custom.getD (get_palette pid)) image
        exact this ▸ hy
      · have := colorApply_width alg (custom.getD (get_palette pid)) image
        exact this ▸ hx
  · rw [if_neg h2] at h
    have hout : out = .gray (grayApply tex alg image) := by
      injection h with h4
      exact h4.symm
    subst hout
    rw [if_neg h2]
    have hy2 : y < image.height := by
      have := grayApply_height tex alg image
      exact this ▸ hy
    have hx2 : x < image.width := by
      have := grayApply_width tex alg image
      exact this ▸ hx
    rcases grayApply_pix_mem tex alg image y x hy2 hx2 with hv | hv
    · show ((grayApply tex alg image).pix y x, (grayApply tex alg image).pix y x,
        (grayApply tex alg image).pix y x) ∈ bwPalette
      rw [hv]
      exact List.mem_cons_self _ _
    · show ((grayApply tex alg image).pix y x, (grayApply tex alg image).pix y x,
        (grayApply tex alg image).pix y x) ∈ bwPalette
      rw [hv]
      exact List.mem_cons_of_mem _ (List.mem_cons_self _ _)

/-- Witness for C1: a grayscale-path call lands in the black/white
palette. -/
theorem dither_palette_closure_witness :
    pixColor (PILImage.gray (grayApply BLUE_NOISE_SOURCE "stucki" (grayUnit 100))) 0 0 ∈
      bwPalette := by
  have h := dither_palette_closure BLUE_NOISE_SOURCE "stucki" "bw" none (grayUnit 100)
    (.gray (grayApply BLUE_NOISE_SOURCE "stucki" (grayUnit 100)))
    (by simp [dither_image, ALGORITHM_NAMES, COLOR_ALGORITHM_NAMES])
    (by unfold ValidPalette; decide) 0 0
    (by simp [PILImage.height, grayApply_height, grayUnit])
    (by simp [PILImage.width, grayApply_width, grayUnit])
  have hcond : ¬("stucki" ∈ COLOR_ALGORITHM_NAMES ∧
      ¬("bw" = "bw" ∧ (none : Option (List Color)) = none)) := by
    simp [COLOR_ALGORITHM_NAMES]
  rw [if_neg hcond] at h
  exact h

/-- Counterexample for C1 as stated: algorithm stucki with the (valid,
4-entry) Game Boy palette succeeds but returns a pixel that is no Game
Boy palette entry — the grayscale algorithms ignore the palette and emit
pure black/white. -/
theorem dither_palette_closure_cex :
    "stucki" ∈ ALGORITHM_NAMES ∧
    2 ≤ (get_palette "gameboy").length ∧
    ValidPalette (get_palette "gameboy") ∧
    isOkB (dither_image BLUE_NOISE_SOURCE "stucki" "gameboy" none (grayUnit 100)) = true ∧
    pixColor (getOutput (dither_image BLUE_NOISE_SOURCE "stucki" "gameboy" none
      (grayUnit 100))) 0 0 ∉ get_palette "gameboy" := by
  have hpix : (stucki_dither (grayUnit 100)).pix 0 0 = 0 := by
    have h := grayED_one_pix stuckiKernel forward_stucki 100
    simpa using h
  refine ⟨by decide, by decide, by unfold ValidPalette; decide, ?_, ?_⟩
  · simp [dither_image, ALGORITHM_NAMES, COLOR_ALGORITHM_NAMES, isOkB]
  · have hdisp : dither_image BLUE_NOISE_SOURCE "stucki" "gameboy" none (grayUnit 100) =
        .ok (.gray (stucki_dither (grayUnit 100))) := by
      simp [dither_image, ALGORITHM_NAMES, COLOR_ALGORITHM_NAMES, grayApply]
    rw [hdisp]
    show ((stucki_dither (grayUnit 100)).pix 0 0, (stucki_dither (grayUnit 100)).pix 0 0,
      (stucki_dither (grayUnit 100)).pix 0 0) ∉ get_palette "gameboy"
    rw [hpix]
    decide

/-!
C7: single-pixel images under error diffusion.
-/

/-- A grayscale error-diffusion function behaves correctly on 1×1 images:
the single pixel is thresholded (255 above 127, else 0) and nothing else
is ever written. -/
def GraySinglePixelOk (f : PILImage → GrayImage) : Prop :=
  ∀ v : Nat, v ≤ 255 →
    ((f (grayUnit v)).pix 0 0 = if 127 < v then 255 else 0) ∧
    ∀ y x, ¬(y = 0 ∧ x = 0) → (f (grayUnit v)).pix y x = v

/-- A color error-diffusion function behaves correctly on 1×1 images:
the single pixel becomes the (first) closest palette entry and nothing
else is ever written. -/
def ColorSinglePixelOk (f : List Color → PILImage → ColorImage) : Prop :=
  ∀ pal, pal ≠ [] → ValidPalette pal →
    ∀ p : Color, p.1 ≤ 255 → p.2.1 ≤ 255 → p.2.2 ≤ 255 →
      ∃ c, find_closest_color ((p.1 : ℤ), (p.2.1 : ℤ), (p.2.2 : ℤ)) pal = some c ∧
        (∀ c2 ∈ pal, sqDist ((p.1 : ℤ), (p.2.1 : ℤ), (p.2.2 : ℤ)) c ≤
          sqDist ((p.1 : ℤ), (p.2.1 : ℤ), (p.2.2 : ℤ)) c2) ∧
        (f pal (rgbUnit p)).pix 0 0 = c ∧
        ∀ y x, ¬(y = 0 ∧ x = 0) → (f pal (rgbUnit p)).pix y x = p

/-- C7: every error-diffusion algorithm maps a 1×1 image to the single
nearest palette entry (binary threshold for the grayscale eight — which
equals nearest-of-{0,255} for byte inputs, as the arithmetic conjunct
states — and the closest palette color for the color variants), and no
diffusion write ever lands outside the 1×1 buffer. -/
theorem error_diffusion_single_pixel :
    GraySinglePixelOk floyd_steinberg_dither ∧ GraySinglePixelOk atkinson_dither ∧
    GraySinglePixelOk stucki_dither ∧ GraySinglePixelOk jarvis_dither ∧
    GraySinglePixelOk burkes_dither ∧ GraySinglePixelOk sierra_dither ∧
    GraySinglePixelOk sierra_two_row_dither ∧ GraySinglePixelOk sierra_lite_dither ∧
    (∀ v : Nat, v ≤ 255 →
      ((if 127 < v then (255 : ℤ) else 0) - v) ^ 2 ≤ (0 - (v : ℤ)) ^ 2 ∧
      ((if 127 < v then (255 : ℤ) else 0) - v) ^ 2 ≤ (255 - (v : ℤ)) ^ 2) ∧
    ColorSinglePixelOk floyd_steinberg_color_dither ∧
    ColorSinglePixelOk atkinson_color_dither := by
  have hgray : ∀ kern, Forward kern → GraySinglePixelOk (grayED kern) := by
    intro kern hf v hv
    exact ⟨grayED_one_pix kern hf v, fun y x hyx => grayED_one_other kern v hv y x hyx⟩
  have hcolor : ∀ kern, Forward kern → ColorSinglePixelOk (colorED kern) := by
    intro kern hf pal hne hval p h1 h2 h3
    rcases fcc_isSome (p := ((p.1 : ℤ), (p.2.1 : ℤ), (p.2.2 : ℤ))) hne with ⟨c, hc⟩
    refine ⟨c, hc, (fcc_spec _ pal c hc).2.1, ?_, ?_⟩
    · show (colorED kern pal (.rgb ⟨1, 1, fun _ _ => p⟩)).pix 0 0 = c
      rw [colorED_one_pix kern hf pal hne hval p, fccD, hc, Option.getD_some]
    · intro y x hyx
      exact colorED_one_other kern pal p h1 h2 h3 y x hyx
  refine ⟨hgray fsKernel forward_fs, hgray atkinsonKernel forward_atkinson,
    hgray stuckiKernel forward_stucki, hgray jarvisKernel forward_jarvis,
    hgray burkesKernel forward_burkes, hgray sierraKernel forward_sierra,
    hgray sierraTwoRowKernel forward_sierra_two_row,
    hgray sierraLiteKernel forward_sierra_lite,
    ?_, hcolor fsKernel forward_fs, hcolor atkinsonKernel forward_atkinson⟩
  intro v hv
  by_cases h : 127 < v
  · rw [if_pos h]
    constructor
    · have ha : (0 - (v : ℤ)) ^ 2 = (v : ℤ) ^ 2 := by ring
      rw [ha]
      have hle : (255 : ℤ) - v ≤ v := by omega
      have h0 : (0 : ℤ) ≤ 255 - v := by omega
      exact pow_le_pow_left₀ h0 hle 2
    · exact le_refl _
  · rw [if_neg h]
    constructor
    · exact le_refl _
    · have ha : (0 - (v : ℤ)) ^ 2 = (v : ℤ) ^ 2 := by ring
      have hb : ((0 : ℤ) - v) ^ 2 ≤ (255 - (v : ℤ)) ^ 2 := by
        rw [ha]
        have hle : (v : ℤ) ≤ 255 - v := by omega
        have h0 : (0 : ℤ) ≤ (v : ℤ) := by omega
        exact pow_le_pow_left₀ h0 hle 2
      exact hb

/-- Witness for C7: 1×1 probes through stucki (grayscale) and
Floyd-Steinberg (color, black/white palette). -/
theorem error_diffusion_single_pixel_witness :
    (stucki_dither (grayUnit 100)).pix 0 0 = 0 ∧
    (stucki_dither (grayUnit 100)).pix 2 3 = 100 ∧
    (floyd_steinberg_color_dither bwPalette (rgbUnit (200, 200, 200))).pix 0 0 =
      (255, 255, 255) := by
  have hstucki := error_diffusion_single_pixel.2.2.1 100 (by decide)
  have hcolor := error_diffusion_single_pixel.2.2.2.2.2.2.2.2.2.1 bwPalette
    (by decide) (by unfold ValidPalette; decide) (200, 200, 200)
    (by decide) (by decide) (by decide)
  refine ⟨?_, ?_, ?_⟩
  · have h := hstucki.1
    simpa using h
  · exact hstucki.2 2 3 (by decide)
  · rcases hcolor with ⟨c, hc, hmin, hpix, hout⟩
    have hcval : find_closest_color (((200 : Nat) : ℤ), ((200 : Nat) : ℤ), ((200 : Nat) : ℤ))
        bwPalette = some (255, 255, 255) := by decide
    rw [hc] at hcval
    have hceq : c = (255, 255, 255) := by
      injection hcval
    rw [hpix, hceq]


/-!
C4: the ordered / Bayer quantization rule.
-/

/-- Modelled from the spec: §4.2's "quantize the biased value to the
nearest palette entry ordered by luminance" — the entry of the
luminance-sorted palette whose normalized luminance is nearest to the
biased value, first entry on ties (squared differences compare the same
as absolute differences). -/
def nearest_by_luminance (m : List (List Nat)) (palette : List Color) (y x : Nat)
    (p : Q3) : Color :=
  let ps := sortedByLum palette
  let adjusted := pixelLum p + ((matAt m y x : ℚ) / 16 - 1/2) / (ps.length : ℚ)
  match ps with
  | [] => (0, 0, 0)
  | c :: cs => cs.foldl (fun best c2 =>
      if (lumKey c2 / 255 - adjusted) ^ 2 < (lumKey best / 255 - adjusted) ^ 2
      then c2 else best) c

/-- C4 (amended): for every pixel the ordered and Bayer color engines
compute the normalized luminance, add the matrix value at
(y mod 4, x mod 4) as a signed bias (matrix/16 − 1/2, scaled by
1/paletteSize), multiply back by the palette size, clip to
[0, paletteSize−1], truncate, and output the luminance-sorted palette
entry at that rank — uniform-bucket quantization of the biased
luminance (not nearest-entry-by-luminance; see the counterexample).
The chosen entry is always a member of the supplied palette. -/
theorem ordered_bucket_quantization (pal : List Color) (image : PILImage)
    (y x : Nat) (hy : y < image.height) (hx : x < image.width) :
    ((ordered_color_dither pal image).pix y x =
      colorOut (orderedPixel thresholdMap pal y x
        (q3OfColor ((convertRGB image).pix y x)))) ∧
    ((bayer_color_dither pal image).pix y x =
      colorOut (orderedPixel bayerMatrix pal y x
        (q3OfColor ((convertRGB image).pix y x)))) ∧
    (pal ≠ [] → ValidPalette pal →
      (ordered_color_dither pal image).pix y x ∈ pal ∧
      (bayer_color_dither pal image).pix y x ∈ pal) := by
  refine ⟨ordered_color_pix pal image y x hy hx, bayer_color_pix pal image y x hy hx, ?_⟩
  intro hne hval
  constructor
  · rw [ordered_color_pix pal image y x hy hx]
    rcases orderedPixel_mem thresholdMap pal y x (q3OfColor ((convertRGB image).pix y x)) hne
      with ⟨c, hc, hcv⟩
    rw [hcv, colorOut_ofColor (hval c hc).1 (hval c hc).2.1 (hval c hc).2.2]
    exact hc
  · rw [bayer_color_pix pal image y x hy hx]
    rcases orderedPixel_mem bayerMatrix pal y x (q3OfColor ((convertRGB image).pix y x)) hne
      with ⟨c, hc, hcv⟩
    rw [hcv, colorOut_ofColor (hval c hc).1 (hval c hc).2.1 (hval c hc).2.2]
    exact hc

/-- The 1×2 mid-gray probe image of the C4 counterexample. -/
def midgrayRow : PILImage := .rgb ⟨2, 1, fun _ _ => (128, 128, 128)⟩

/-- The 4-entry palette of the C4 counterexample (luminances 0, 230, 242,
255 — already sorted). -/
def cexPalette : List Color :=
  [(0, 0, 0), (230, 230, 230), (242, 242, 242), (255, 255, 255)]

/-- Witness for C4: the pointwise characterisation at a concrete pixel. -/
theorem ordered_bucket_quantization_witness :
    (ordered_color_dither cexPalette midgrayRow).pix 0 1 =
      colorOut (orderedPixel thresholdMap cexPalette 0 1
        (q3OfColor ((convertRGB midgrayRow).pix 0 1))) :=
  (ordered_bucket_quantization cexPalette midgrayRow 0 1 (by decide) (by decide)).1


theorem sortedByLum_cexPalette : sortedByLum cexPalette = cexPalette := by
  norm_num [sortedByLum, cexPalette, List.insertionSort, List.orderedInsert, lumKey]

/-- Evaluation of the bucketing rule at the counterexample pixel: the
biased luminance is 128/255, times 4 gives 512/255, whose floor 2 selects
the third-darkest entry. -/
theorem orderedPixel_cex_eval :
    orderedPixel thresholdMap cexPalette 0 1 (q3OfColor (128, 128, 128)) =
      q3OfColor (242, 242, 242) := by
  simp only [orderedPixel, sortedByLum_cexPalette]
  have hfl : ⌊min (max ((pixelLum (q3OfColor (128, 128, 128)) +
      ((matAt thresholdMap 0 1 : ℚ) / 16 - 1/2) / ((cexPalette.length : ℚ))) *
        (cexPalette.length : ℚ)) 0)
      ((cexPalette.length : ℚ) - 1)⌋ = 2 := by
    have harg : (pixelLum (q3OfColor (128, 128, 128)) +
        ((matAt thresholdMap 0 1 : ℚ) / 16 - 1/2) / ((cexPalette.length : ℚ))) *
          (cexPalette.length : ℚ) = 512/255 := by
      norm_num [pixelLum, q3OfColor, matAt, thresholdMap, cexPalette]
    rw [harg]
    have hmm : min (max (512/255 : ℚ) 0) ((cexPalette.length : ℚ) - 1) = 512/255 := by
      norm_num [cexPalette]
    rw [hmm]
    rw [Int.floor_eq_iff]
    norm_num
  rw [hfl]
  rw [show Int.toNat 2 = 2 from rfl]
  norm_num [cexPalette, List.getD, q3OfColor, List.getElem_cons_succ, List.getElem_cons_zero]

/-- Counterexample for C4 as stated: at a mid-gray pixel with a palette
whose luminances are 0, 230, 242, 255, the engine outputs the rank-2
bucket entry (242,242,242), while the nearest entry by luminance to the
biased value is (230,230,230) — bucketing is not nearest-entry
quantization. -/
theorem ordered_nearest_cex :
    (ordered_color_dither cexPalette midgrayRow).pix 0 1 = (242, 242, 242) ∧
    nearest_by_luminance thresholdMap cexPalette 0 1 (q3OfColor (128, 128, 128)) =
      (230, 230, 230) := by
  constructor
  · rw [ordered_color_pix cexPalette midgrayRow 0 1 (by decide) (by decide)]
    have hpx : (convertRGB midgrayRow).pix 0 1 = (128, 128, 128) := rfl
    rw [hpx, orderedPixel_cex_eval]
    exact colorOut_ofColor (by norm_num) (by norm_num) (by norm_num)
  · simp only [nearest_by_luminance, sortedByLum_cexPalette]
    norm_num [cexPalette, lumKey, pixelLum, q3OfColor, matAt, thresholdMap]


/-!
C3: halftone at non-multiple image dimensions.
-/

/-- The black 4×5 (width 4, height 5) probe image of the C3
counterexample: its height is not a multiple of the default cell size. -/
def blackTall : PILImage := .gray ⟨4, 5, fun _ _ => 0⟩

/-- Modelled from the spec: cell starts of §4.3's full partition
("partition the image into non-overlapping square cells", partial cells
included) — Python range(0, n, d). -/
def specCellStarts (n d : Nat) : List Nat :=
  (List.range ((n + d - 1) / d)).map (fun q => q * d)

/-- Modelled from the spec: mean luminance of an effective (possibly
smaller) cell of height ch and width cw. -/
def specCellMean (arr : Nat → Nat → Nat) (ch cw cy cx : Nat) : ℚ :=
  ((List.range ch).foldl (fun acc i =>
    (List.range cw).foldl (fun acc2 j => acc2 + (arr (cy + i) (cx + j) : ℚ)) acc) 0)
    / ((ch : ℚ) * (cw : ℚ))

/-- Modelled from the spec: §4.3 rendering of one cell, over "whatever
samples remain (smaller effective cell)": the effective cell is
min d (h−cy) × min d (w−cx), the maximum radius half its side, and the
distance test runs against the effective cell's own center. -/
def specApplyCell (arr : Nat → Nat → Nat) (w h d cy cx : Nat)
    (o : Nat → Nat → Nat) : Nat → Nat → Nat :=
  let ch := min d (h - cy)
  let cw := min d (w - cx)
  let r := ((min ch cw : ℚ)) / 2 * (1 - specCellMean arr ch cw cy cx / 255)
  (List.range ch).foldl (fun o1 (i : Nat) =>
    (List.range cw).foldl (fun o2 (j : Nat) =>
      if 0 ≤ r ∧
          (((j : ℚ) - (cw : ℚ) / 2) + 1/2) ^ 2 + (((i : ℚ) - (ch : ℚ) / 2) + 1/2) ^ 2 ≤ r ^ 2
      then upd o2 (cy + i) (cx + j) 0 else o2) o1) o

/-- Modelled from the spec: the full halftone pass of §4.3 with partial
cells processed. -/
def specHalftoneRun (arr : Nat → Nat → Nat) (w h d : Nat) : Nat → Nat → Nat :=
  (specCellStarts h d).foldl (fun o cy =>
    (specCellStarts w d).foldl (fun o2 cx => specApplyCell arr w h d cy cx o2) o)
    (fun _ _ => 255)

/-- Modelled from the spec: halftone dithering as §4.3 describes it,
processing the final partial row/column of cells over the remaining
samples. -/
def halftone_dither_spec (image : PILImage) (d : Nat) : GrayImage :=
  let img := convertL image
  ⟨img.width, img.height, specHalftoneRun img.pix img.width img.height d⟩

/-- C3 (amended): the halftone loops skip the final partial row/column
entirely — every sample of the partial margin keeps the white background —
and the pass never reads outside the image buffer: outputs are fully
determined by the in-bounds samples. -/
theorem halftone_partial_margin :
    (∀ (image : PILImage) (d y x : Nat),
      (d * (image.height / d) ≤ y ∨ d * (image.width / d) ≤ x) →
      (halftone_dither image d).pix y x = 255) ∧
    (∀ (arr arr2 : Nat → Nat → Nat) (w h d : Nat),
      (∀ y x, y < h → x < w → arr y x = arr2 y x) →
      ∀ y x, halftoneRun arr w h d y x = halftoneRun arr2 w h d y x) := by
  constructor
  · intro image d y x hm
    show halftoneRun (convertL image).pix (convertL image).width (convertL image).height d y x = 255
    apply halftoneRun_margin
    rw [convertL_height, convertL_width]
    exact hm
  · intro arr arr2 w h d hagree y x
    exact halftoneRun_congr arr arr2 w h d hagree y x

/-- Witness for C3's amended statement: the bottom partial row of a 4×5
image stays white, and two grids agreeing on the 4×5 rectangle halftone
identically. -/
theorem halftone_partial_margin_witness :
    (halftone_dither blackTall 4).pix 4 1 = 255 ∧
    halftoneRun (fun _ _ => 3) 4 5 4 0 0 =
      halftoneRun (fun y x => if y < 5 ∧ x < 4 then 3 else 99) 4 5 4 0 0 := by
  constructor
  · exact halftone_partial_margin.1 blackTall 4 4 1 (Or.inl (by decide))
  · apply halftone_partial_margin.2
    intro y x hy hx
    rw [if_pos ⟨hy, hx⟩]

/-- Counterexample for C3 as stated: on the all-black 4×5 image the
engine leaves the partial bottom row white, while the spec's
partial-cell processing blackens its dot there. -/
theorem halftone_partial_cex :
    (halftone_dither blackTall 4).pix 4 1 = 255 ∧
    (halftone_dither_spec blackTall 4).pix 4 1 = 0 := by
  constructor
  · show halftoneRun (convertL blackTall).pix (convertL blackTall).width
      (convertL blackTall).height 4 4 1 = 255
    apply halftoneRun_margin
    left
    decide
  · show specHalftoneRun (convertL blackTall).pix (convertL blackTall).width
      (convertL blackTall).height 4 4 1 = 0
    norm_num [specHalftoneRun, specCellStarts, specApplyCell, specCellMean,
      List.range_succ, upd, convertL, blackTall]


end DitherMagic
